import Mathlib

/-!
# plint: declaration/definition order checking

A shallow embedding of `plint.go`.  The tree-sitter library is external: the
syntax tree of a file and the matches a query cursor yields on it are inputs
here; everything that `plint.go` itself computes on them is a definition
below, named after its Go function.
-/

namespace Plint

/-- File content, `[]byte` in Go; one `Char` per byte. -/
abbrev Bytes := List Char

/-- Zero-based position of a node, `sitter.Point`. -/
structure Point where
  Row : Nat
  Column : Nat
deriving DecidableEq, Repr

/-- A node of the syntax tree, `*sitter.Node`, with the accessors `plint.go`
calls.  `FnId` is the node that the query
`(function_declarator declarator: (identifier) @id)` captures first when it
is run on this node, if it matches at all. -/
inductive Node where
  | mk (NodeType : String) (IsError : Bool) (StartByte EndByte : Nat)
      (StartPoint : Point) (Children : List Node) (FnId : Option Node) : Node

namespace Node

/-- Grammar name of the node, `n.Type()`. -/
def NodeType : Node → String
  | mk t _ _ _ _ _ _ => t

/-- Flag of the parser's error nodes, `n.IsError()`. -/
def IsError : Node → Bool
  | mk _ e _ _ _ _ _ => e

/-- Offset of the first byte of the node, `n.StartByte()`. -/
def StartByte : Node → Nat
  | mk _ _ s _ _ _ _ => s

/-- Offset after the last byte of the node, `n.EndByte()`. -/
def EndByte : Node → Nat
  | mk _ _ _ e _ _ _ => e

/-- Row and column of the first byte of the node, `n.StartPoint()`. -/
def StartPoint : Node → Point
  | mk _ _ _ _ p _ _ => p

/-- Children in document order, `n.Child(i)` for `i < n.ChildCount()`. -/
def Children : Node → List Node
  | mk _ _ _ _ _ c _ => c

/-- Answer of the identifier query on the node. -/
def FnId : Node → Option Node
  | mk _ _ _ _ _ _ f => f

/-- Text spanned by the node, `n.Content(input)`, which is
`string(input[n.StartByte():n.EndByte()])`.  `plint.go` reads a node against
the buffer it was parsed from, which contains its span (`Run` passes the same
buffer twice when the two names are equal), so the slice expression does not
fail and is total here. -/
def Content (n : Node) (input : Bytes) : Bytes :=
  (input.drop n.StartByte).take (n.EndByte - n.StartByte)

end Node

/-- One match of a query cursor, `*sitter.QueryMatch`: its captured nodes. -/
structure QueryMatch where
  Captures : List Node

/-- What tree-sitter gives for one file: the root of the parsed tree,
`p.ParseCtx(...).RootNode()`, and the matches that the cursor of
`[(declaration) @decl (function_definition) @def]` yields on that root, in the
order `NextMatch` returns them. -/
structure Tree where
  RootNode : Node
  Matches : List QueryMatch

/-- One location block of a diagnostic: what `renderNodeLocString` prints, the
colours left out.  `row` and `col` are the numbers printed (one-based),
`rowNumWidth` the width the gutter is padded to, `line` the text printed after
the gutter. -/
structure LocBlock where
  fname : String
  row : Nat
  col : Nat
  rowNumWidth : Nat
  line : Bytes
deriving DecidableEq, Repr

/-- One argument of `makeError`, printed on a line of its own: an error
message (`renderErrorString msg`), a location block, the empty string, or a
plain string (the usage text of `Run`). -/
inductive Line where
  | msg (text : String) : Line
  | loc (block : LocBlock) : Line
  | empty : Line
  | plain (text : String) : Line
deriving DecidableEq, Repr

/-- How a call ends: `return nil`, `return makeError(...)` with the lines of
the error text, or a run-time panic (`log.Panicln`, index out of range). -/
inductive Outcome where
  | nil : Outcome
  | error (lines : List Line) : Outcome
  | panic : Outcome
deriving DecidableEq, Repr

/-- Two's complement wrap-around of a Go `int` (64 bits). -/
def wrapInt (x : Int) : Int :=
  (x + 2 ^ 63) % 2 ^ 64 - 2 ^ 63

/-- The loop `for n >= 10 { width += 1; n /= 10 }` of `intToStringWidth`.  The
first argument bounds the number of turns; `n` itself is enough, since every
turn makes `n` smaller. -/
def intToStringWidthLoop : Nat → Int → Nat → Nat
  | 0, _, width => width
  | fuel + 1, n, width =>
    if n ≥ 10 then intToStringWidthLoop fuel (n / 10) (width + 1) else width

/-- Go `intToStringWidth`. -/
def intToStringWidth (n : Int) : Nat :=
  if n < 0 then
    let n1 := wrapInt (n * -1)
    intToStringWidthLoop n1.toNat n1 2
  else
    intToStringWidthLoop n.toNat n 1

/-- First loop of `stringAtRow`: `for ; r < frow; beg += 1` counts newlines
from the start of the data.  The first argument is `fdata[beg:]`, the second
`frow - r`; the result is `fdata[beg:]` when the loop ends, `none` when
`fdata[beg]` is read past the end of the data. -/
def stringAtRowSkip : Bytes → Nat → Option Bytes
  | rest, 0 => some rest
  | [], _ + 1 => none
  | c :: rest, k + 1 =>
    if c = '\n' then stringAtRowSkip rest k else stringAtRowSkip rest (k + 1)

/-- Second loop of `stringAtRow`: `for ; fdata[end] != '\n'; end += 1`, then
`end += 1` and `fdata[beg:end]`.  The argument is `fdata[beg:]`; the result is
`none` when `fdata[end]` is read past the end of the data. -/
def stringAtRowTake : Bytes → Option Bytes
  | [] => none
  | c :: rest =>
    if c = '\n' then some [c] else (stringAtRowTake rest).map (fun l => c :: l)

/-- Go `stringAtRow`; `none` is the index-out-of-range panic. -/
def stringAtRow (fdata : Bytes) (frow : Nat) : Option Bytes :=
  match stringAtRowSkip fdata frow with
  | none => none
  | some rest => stringAtRowTake rest

/-- Go `renderErrorString`, the styling left out. -/
def renderErrorString (msg : String) : Line :=
  Line.msg msg

/-- Go `renderNodeLocString`, the styling left out; `none` when `stringAtRow`
panics. -/
def renderNodeLocString (n : Node) (fname : String) (fdata : Bytes) : Option LocBlock :=
  let row := n.StartPoint.Row
  let col := n.StartPoint.Column
  let rowNumWidth := intToStringWidth row
  match stringAtRow fdata row with
  | none => none
  | some line => some ⟨fname, row + 1, col + 1, rowNumWidth, line⟩

/-- Go `makeError`: the error whose text is the given lines. -/
def makeError (lines : List Line) : Outcome :=
  Outcome.error lines

/-- Go `getFnIdNode`: the first match of the identifier query on the node. -/
def getFnIdNode (n : Node) : Option Node :=
  n.FnId

/-- Go `isStaticFn`: some direct child is a storage class specifier whose text
is `static`. -/
def isStaticFn (n : Node) (buf : Bytes) : Bool :=
  n.Children.any fun c =>
    decide (c.NodeType = "storage_class_specifier") && decide (c.Content buf = "static".toList)

/-- The return statement `return makeError(renderErrorString(msg),
renderNodeLocString(n, fname, fdata))`: the arguments are evaluated first, so a
panic of `stringAtRow` is the outcome. -/
def errorAt (msg : String) (n : Node) (fname : String) (fdata : Bytes) : Outcome :=
  match renderNodeLocString n fname fdata with
  | none => Outcome.panic
  | some b => makeError [renderErrorString msg, Line.loc b]

/-- The return statement `return makeError(renderErrorString(msg),
renderNodeLocString(n1, fname1, fdata1), "", renderNodeLocString(n2, fname2, fdata2))`. -/
def errorAtPair (msg : String) (n1 : Node) (fname1 : String) (fdata1 : Bytes)
    (n2 : Node) (fname2 : String) (fdata2 : Bytes) : Outcome :=
  match renderNodeLocString n1 fname1 fdata1, renderNodeLocString n2 fname2 fdata2 with
  | some b1, some b2 => makeError [renderErrorString msg, Line.loc b1, Line.empty, Line.loc b2]
  | _, _ => Outcome.panic

/-- Go `validateFns` on the captures of one match.  The deque behind the
pointer `hdrFnIdNodes` is a list, front first; it is returned with the
outcome, as the caller sees it afterwards. -/
def validateFns (hdrFname : String) (hdrData : Bytes) (srcFname : String) (srcData : Bytes) :
    List Node → List Node → Outcome × List Node
  | [], hdrFnIdNodes => (Outcome.nil, hdrFnIdNodes)
  | n :: rest, hdrFnIdNodes =>
    if n.NodeType = "function_definition" then
      if isStaticFn n srcData then
        validateFns hdrFname hdrData srcFname srcData rest hdrFnIdNodes
      else
        match getFnIdNode n with
        | none => validateFns hdrFname hdrData srcFname srcData rest hdrFnIdNodes
        | some srcFnIdNode =>
          let srcFnName := srcFnIdNode.Content srcData
          if srcFnName = "main".toList then
            validateFns hdrFname hdrData srcFname srcData rest hdrFnIdNodes
          else
            match hdrFnIdNodes with
            | [] =>
              (errorAt "definition without matching declaration" srcFnIdNode hdrFname hdrData, [])
            | hdrFnIdNode :: popped =>
              let hdrFnName := hdrFnIdNode.Content hdrData
              if srcFnName = hdrFnName then
                validateFns hdrFname hdrData srcFname srcData rest popped
              else
                (errorAtPair "declaration and definition not in order"
                  hdrFnIdNode hdrFname hdrData srcFnIdNode srcFname srcData, popped)
    else if n.NodeType = "declaration" then
      match getFnIdNode n with
      | none => validateFns hdrFname hdrData srcFname srcData rest hdrFnIdNodes
      | some _ =>
        (errorAt "found declaration but expected definition" n srcFname srcData, hdrFnIdNodes)
    else
      (Outcome.panic, hdrFnIdNodes)

mutual
/-- Go `assertNoParserErrors`. -/
def assertNoParserErrors (fname : String) (fdata : Bytes) : Node → Outcome
  | Node.mk t e s f p cs i =>
    if e then
      errorAt "syntax error" (Node.mk t e s f p cs i) fname fdata
    else
      assertNoParserErrorsChildren fname fdata cs
/-- The loop of `assertNoParserErrors` over the children, from `n.Child(i)` on. -/
def assertNoParserErrorsChildren (fname : String) (fdata : Bytes) : List Node → Outcome
  | [] => Outcome.nil
  | c :: cs =>
    match assertNoParserErrors fname fdata c with
    | Outcome.nil => assertNoParserErrorsChildren fname fdata cs
    | err => err
end

/-- Inner loop of `outer`, over the captures of one match: `some (q, true)`
on `break outer`, `some (q, false)` when the captures run out, `none` on
`log.Panicln`. -/
def scanCaptures : List Node → List Node → Option (List Node × Bool)
  | [], fnIdNodes => some (fnIdNodes, false)
  | c :: rest, fnIdNodes =>
    if c.NodeType = "declaration" then
      match getFnIdNode c with
      | some idNode => scanCaptures rest (fnIdNodes ++ [idNode])
      | none => scanCaptures rest fnIdNodes
    else if c.NodeType = "function_definition" then
      some (fnIdNodes, true)
    else
      none

/-- The loop labelled `outer` of `Validate`, over the matches of the header.
The result is `none` on `log.Panicln`; otherwise the deque `fnIdNodes` and
what `m, present` hold when the loop ends: `some (m, rest)` after `break outer`
in match `m` (`present` true, `rest` the matches the cursor has not given
yet), `none` when the cursor ran out (`present` false). -/
def scanMatches : List QueryMatch → List Node →
    Option (Option (QueryMatch × List QueryMatch) × List Node)
  | [], fnIdNodes => some (none, fnIdNodes)
  | m :: rest, fnIdNodes =>
    match scanCaptures m.Captures fnIdNodes with
    | none => none
    | some (q, true) => some (some (m, rest), q)
    | some (q, false) => scanMatches rest q

/-- The loops `for m, present := qc.NextMatch(); present; ...` of `Validate`
that call `validateFns` on every match and return at the first error. -/
def validateMatches (hdrFname : String) (hdrData : Bytes) (srcFname : String) (srcData : Bytes) :
    List QueryMatch → List Node → Outcome × List Node
  | [], fnIdNodes => (Outcome.nil, fnIdNodes)
  | m :: rest, fnIdNodes =>
    match validateFns hdrFname hdrData srcFname srcData m.Captures fnIdNodes with
    | (Outcome.nil, q) => validateMatches hdrFname hdrData srcFname srcData rest q
    | res => res

/-- The end of `Validate`: `if fnIdNodes.Len() > 0 { return makeError(...) }`,
else `return nil`. -/
def checkResidual (hdrFname : String) (hdr : Bytes) : List Node → Outcome
  | [] => Outcome.nil
  | front :: _ => errorAt "declaration without matching definition" front hdrFname hdr

/-- Go `Validate`.  `ht` and `st` are what tree-sitter gives for `hdr` and
`src`; the parser itself does not fail (`ParseCtx` is called without a
cancellable context). -/
def Validate (hdrFname : String) (hdr : Bytes) (ht : Tree)
    (srcFname : String) (src : Bytes) (st : Tree) : Outcome :=
  match assertNoParserErrors hdrFname hdr ht.RootNode with
  | Outcome.nil =>
    match scanMatches ht.Matches [] with
    | none => Outcome.panic
    | some (cur, fnIdNodes) =>
      match decide (hdrFname = srcFname), cur with
      | true, some (m, rest) =>
        match validateFns hdrFname hdr srcFname src m.Captures fnIdNodes with
        | (Outcome.nil, q1) =>
          match validateMatches hdrFname hdr srcFname src rest q1 with
          | (Outcome.nil, q2) => checkResidual hdrFname hdr q2
          | (err, _) => err
        | (err, _) => err
      | true, none =>
        match fnIdNodes with
        | front :: _ => errorAt "declaration without matching definition" front hdrFname hdr
        | [] => makeError [renderErrorString "header-only file doesn't contain any definition"]
      | false, _ =>
        match assertNoParserErrors srcFname src st.RootNode with
        | Outcome.nil =>
          match validateMatches hdrFname hdr srcFname src st.Matches fnIdNodes with
          | (Outcome.nil, q2) => checkResidual hdrFname hdr q2
          | (err, _) => err
        | err => err
  | err => err

/-- Go `Run`.  The world outside is two parameters: `readFile` for
`os.ReadFile` (the file's content, or the text of the error), and `parse` for
the tree and cursor matches tree-sitter gives for a content.  The result is
the error `Run` returns (or its panic) with the names of the files read, in
the order of the calls of `os.ReadFile`. -/
def Run (readFile : String → Except String Bytes) (parse : Bytes → Tree) :
    List String → Outcome × List String
  | [_, hdrFname] =>
    match readFile hdrFname with
    | Except.error err => (Outcome.error [Line.plain err], [hdrFname])
    | Except.ok hdr =>
      (Validate hdrFname hdr (parse hdr) hdrFname hdr (parse hdr), [hdrFname])
  | [_, hdrFname, srcFname] =>
    match readFile hdrFname with
    | Except.error err => (Outcome.error [Line.plain err], [hdrFname])
    | Except.ok hdr =>
      match readFile srcFname with
      | Except.error err => (Outcome.error [Line.plain err], [hdrFname, srcFname])
      | Except.ok src =>
        (Validate hdrFname hdr (parse hdr) srcFname src (parse src), [hdrFname, srcFname])
  | [] => (Outcome.panic, [])
  | arg0 :: _ => (makeError [Line.plain ("Usage: " ++ arg0 ++ " file [file]")], [])

/-! ## Notions the properties are stated with -/

/-- The cursor's matches for a list of captured nodes: the two alternatives of
`[(declaration) @decl (function_definition) @def]` have one capture each, so
every match carries exactly one node. -/
def scanOf (items : List Node) : List QueryMatch :=
  items.map fun n => QueryMatch.mk [n]

mutual
/-- Some node of the tree, the root included, is an error node. -/
def hasErrorNode : Node → Bool
  | Node.mk _ e _ _ _ cs _ => e || hasErrorNodeIn cs
/-- Some tree of the list has an error node. -/
def hasErrorNodeIn : List Node → Bool
  | [] => false
  | c :: cs => hasErrorNode c || hasErrorNodeIn cs
end

/-- A function definition, as the query captures it. -/
def isDefinition (n : Node) : Bool :=
  decide (n.NodeType = "function_definition")

/-- A function prototype: a declaration with a function declarator. -/
def isPrototype (n : Node) : Bool :=
  decide (n.NodeType = "declaration") && (getFnIdNode n).isSome

/-- A declaration without function declarator (variable, typedef, struct). -/
def isPlainDeclaration (n : Node) : Bool :=
  decide (n.NodeType = "declaration") && (getFnIdNode n).isNone

/-- Identifier of a function prototype, read in the data of its file. -/
def protoId (data : Bytes) (n : Node) : Option Bytes :=
  if n.NodeType = "declaration" then (getFnIdNode n).map fun i => i.Content data else none

/-- Identifiers of the function prototypes of a scan, in order. -/
def protoIds (data : Bytes) (items : List Node) : List Bytes :=
  items.filterMap (protoId data)

/-- A definition that is static or named `main`. -/
def isExempt (data : Bytes) (n : Node) : Bool :=
  isDefinition n &&
    (isStaticFn n data ||
      match getFnIdNode n with
      | some i => decide (i.Content data = "main".toList)
      | none => false)

/-- Identifier of a definition that is neither static nor named `main`. -/
def defId (data : Bytes) (n : Node) : Option Bytes :=
  if isDefinition n && !isExempt data n then
    (getFnIdNode n).map fun i => i.Content data
  else none

/-- Identifiers of the definitions of a scan that are neither static nor named
`main`, in order. -/
def defIds (data : Bytes) (items : List Node) : List Bytes :=
  items.filterMap (defId data)

/-- Identifiers of the queued declarations, read in the header's data. -/
def queueIds (hdr : Bytes) (q : List Node) : List Bytes :=
  q.map fun i => i.Content hdr

/-- A scan that reconciliation can pass: function definitions and declarations
without function declarator only. -/
def sourceShape (S : List Node) : Prop :=
  ∀ n ∈ S, isDefinition n = true ∨ isPlainDeclaration n = true

instance (S : List Node) : Decidable (sourceShape S) := by
  unfold sourceShape; infer_instance

/-- The nodes the query of `Validate` can capture: declarations and function
definitions. -/
def queryScan (items : List Node) : Prop :=
  ∀ n ∈ items, n.NodeType = "declaration" ∨ n.NodeType = "function_definition"

instance (items : List Node) : Decidable (queryScan items) := by
  unfold queryScan; infer_instance

/-- The items of a scan before its first function definition. -/
def beforeFirstDef (items : List Node) : List Node :=
  items.takeWhile fun n => !isDefinition n

/-- The items of a scan from its first function definition on. -/
def fromFirstDef (items : List Node) : List Node :=
  items.dropWhile fun n => !isDefinition n

/-- Identifier nodes of the function prototypes of a scan, in order. -/
def protoIdNodes (items : List Node) : List Node :=
  items.filterMap fun n => if n.NodeType = "declaration" then getFnIdNode n else none

/-- What reconciliation looks at in a captured node: its grammar name, the
static flag of `isStaticFn`, and the text of its function identifier. -/
structure ItemView where
  nodeType : String
  isStatic : Bool
  fnName : Option Bytes
deriving DecidableEq, Repr

/-- The view of a node read against the data of its file. -/
def view (data : Bytes) (n : Node) : ItemView :=
  ⟨n.NodeType, isStaticFn n data, (getFnIdNode n).map fun i => i.Content data⟩

namespace ItemView

/-- The item is a function definition. -/
def isDef (v : ItemView) : Bool :=
  decide (v.nodeType = "function_definition")

/-- The item is no function definition. -/
def notDef (v : ItemView) : Bool :=
  !v.isDef

/-- The item is a declaration. -/
def isDecl (v : ItemView) : Bool :=
  decide (v.nodeType = "declaration")

/-- Reconciliation can pass the item: a function definition or a declaration
without function declarator. -/
def passable (v : ItemView) : Bool :=
  v.isDef || (v.isDecl && v.fnName.isNone)

/-- Identifier of a function prototype. -/
def protoName (v : ItemView) : Option Bytes :=
  if v.nodeType = "declaration" then v.fnName else none

/-- Identifier of a definition that is neither static nor named `main`. -/
def defName (v : ItemView) : Option Bytes :=
  if v.isDef && !(v.isDef && (v.isStatic ||
      match v.fnName with
      | some name => decide (name = "main".toList)
      | none => false)) then v.fnName
  else none

end ItemView

/-- Success of header-only mode, read on the views of the file's scan: before
the first definition only declarations, a definition somewhere, from the first
definition on only passable items, and the prototypes' identifiers equal to
the reconciled definitions' identifiers. -/
def headerOnlyOk (V : List ItemView) : Prop :=
  (∀ v ∈ V.takeWhile ItemView.notDef, v.isDecl = true) ∧
    V.dropWhile ItemView.notDef ≠ [] ∧
    (∀ v ∈ V.dropWhile ItemView.notDef, v.passable = true) ∧
    (V.takeWhile ItemView.notDef).filterMap ItemView.protoName =
      (V.dropWhile ItemView.notDef).filterMap ItemView.defName

/-- Success of split mode, read on the views of the two scans: before the
header's first definition only declarations, in the source only passable
items, and the identifiers of the header's prototypes before its first
definition equal to the source's reconciled definitions' identifiers. -/
def splitOk (VH VS : List ItemView) : Prop :=
  (∀ v ∈ VH.takeWhile ItemView.notDef, v.isDecl = true) ∧
    (∀ v ∈ VS, v.passable = true) ∧
    (VH.takeWhile ItemView.notDef).filterMap ItemView.protoName =
      VS.filterMap ItemView.defName

/-! ### Sample nodes, as tree-sitter gives them for small C files -/

/-- An identifier of `len` bytes at the given offset, row and column. -/
def sampleId (start len row col : Nat) : Node :=
  Node.mk "identifier" false start (start + len) ⟨row, col⟩ [] none

/-- A node of the given grammar name without children of interest. -/
def sampleLeaf (name : String) (start len row col : Nat) : Node :=
  Node.mk name false start (start + len) ⟨row, col⟩ [] none

/-- The prototype `int NAME(void);` starting a line: `start` the offset of the
line, `len` the length of the name. -/
def sampleProto (start len row : Nat) : Node :=
  Node.mk "declaration" false start (start + len + 11) ⟨row, 0⟩
    [sampleLeaf "primitive_type" start 3 row 0,
     Node.mk "function_declarator" false (start + 4) (start + len + 10) ⟨row, 4⟩
       [sampleId (start + 4) len row 4,
        sampleLeaf "parameter_list" (start + len + 4) 6 row (len + 4)] none,
     sampleLeaf ";" (start + len + 10) 1 row (len + 10)]
    (some (sampleId (start + 4) len row 4))

/-- The definition `int NAME(void){}` starting a line. -/
def sampleDef (start len row : Nat) : Node :=
  Node.mk "function_definition" false start (start + len + 12) ⟨row, 0⟩
    [sampleLeaf "primitive_type" start 3 row 0,
     Node.mk "function_declarator" false (start + 4) (start + len + 10) ⟨row, 4⟩
       [sampleId (start + 4) len row 4,
        sampleLeaf "parameter_list" (start + len + 4) 6 row (len + 4)] none,
     sampleLeaf "compound_statement" (start + len + 10) 2 row (len + 10)]
    (some (sampleId (start + 4) len row 4))

/-- The tree of a file whose top-level items are the given nodes. -/
def sampleTree (len : Nat) (items : List Node) : Tree :=
  Tree.mk (Node.mk "translation_unit" false 0 len ⟨0, 0⟩ items none) (scanOf items)

/-- Header `int add(void);` / `int sub(void);`, one per line. -/
def sampleHdr : Bytes := "int add(void);\nint sub(void);\n".toList

/-- Items of `sampleHdr`. -/
def sampleHdrItems : List Node := [sampleProto 0 3 0, sampleProto 15 3 1]

/-- Source `int add(void){}` / `int sub(void){}`, one per line. -/
def sampleSrc : Bytes := "int add(void){}\nint sub(void){}\n".toList

/-- Items of `sampleSrc`. -/
def sampleSrcItems : List Node := [sampleDef 0 3 0, sampleDef 16 3 1]

/-- The file of `TestHeaderOnlyOk`, shortened: two prototypes, then their
definitions in the same order. -/
def sampleHdrOnly : Bytes :=
  "int add(void);\nint sub(void);\nint add(void){}\nint sub(void){}\n".toList

/-- Prototypes of `sampleHdrOnly`. -/
def sampleHdrOnlyProtos : List Node := [sampleProto 0 3 0, sampleProto 15 3 1]

/-- Definitions of `sampleHdrOnly`. -/
def sampleHdrOnlyDefs : List Node := [sampleDef 30 3 2, sampleDef 46 3 3]

/-- Header with a body: `int add(void);` then `int sub(void){}`. -/
def sampleHdrBody : Bytes := "int add(void);\nint sub(void){}\n".toList

/-- Items of `sampleHdrBody`. -/
def sampleHdrBodyItems : List Node := [sampleProto 0 3 0, sampleDef 15 3 1]

/-- Header that is one body: `int sub(void){}`. -/
def sampleHdrLoneBody : Bytes := "int sub(void){}\n".toList

/-- Items of `sampleHdrLoneBody`. -/
def sampleHdrLoneBodyItems : List Node := [sampleDef 0 3 0]

/-- The file `int add(void);` without a newline at its end. -/
def sampleNoNewline : Bytes := "int add(void);".toList

/-- Items of `sampleNoNewline`. -/
def sampleNoNewlineItems : List Node := [sampleProto 0 3 0]

/-- The prototype `int NAME(void);` at column `col` of its line. -/
def sampleProtoAt (start len row col : Nat) : Node :=
  Node.mk "declaration" false start (start + len + 11) ⟨row, col⟩
    [sampleLeaf "primitive_type" start 3 row col,
     Node.mk "function_declarator" false (start + 4) (start + len + 10) ⟨row, col + 4⟩
       [sampleId (start + 4) len row (col + 4),
        sampleLeaf "parameter_list" (start + len + 4) 6 row (col + len + 4)] none,
     sampleLeaf ";" (start + len + 10) 1 row (col + len + 10)]
    (some (sampleId (start + 4) len row (col + 4)))

/-- Header `int add(void); int sub(void);` on one line, no newline at its end. -/
def sampleHdrOneLine : Bytes := "int add(void); int sub(void);".toList

/-- Items of `sampleHdrOneLine`. -/
def sampleHdrOneLineItems : List Node := [sampleProtoAt 0 3 0 0, sampleProtoAt 15 3 0 15]

/-- Source `int sub(void){}` / `int add(void){}`: `sampleSrc` with its two
definitions swapped. -/
def sampleSrcSwapped : Bytes := "int sub(void){}\nint add(void){}\n".toList

/-- Header `int add(void);`, one line. -/
def sampleHdrAdd : Bytes := "int add(void);\n".toList

/-- Source `int add(void){}` / `int mul(void){}`, one per line. -/
def sampleSrcMul : Bytes := "int add(void){}\nint mul(void){}\n".toList

/-- The files `sampleHdrBody` and `int add(void){}` put one after the other. -/
def sampleBodyConcat : Bytes := "int add(void);\nint sub(void){}\nint add(void){}\n".toList

/-- Items of `sampleBodyConcat`. -/
def sampleBodyConcatItems : List Node :=
  [sampleProto 0 3 0, sampleDef 15 3 1, sampleDef 31 3 2]

/-- Source `int add(void){}`, one line. -/
def sampleSrcAdd : Bytes := "int add(void){}\n".toList

/-- Source `int mul(void);` / `int add(void){}`: a prototype, then a body. -/
def sampleSrcProto : Bytes := "int mul(void);\nint add(void){}\n".toList

/-- Items of `sampleSrcProto`. -/
def sampleSrcProtoItems : List Node := [sampleProto 0 3 0, sampleDef 15 3 1]

/-- Header `int add(void);` / `int sub(void);` / `int add(void){}`. -/
def sampleHdrTail : Bytes := "int add(void);\nint sub(void);\nint add(void){}\n".toList

/-- Items of `sampleHdrTail`. -/
def sampleHdrTailItems : List Node := [sampleProto 0 3 0, sampleProto 15 3 1, sampleDef 30 3 2]

/-- Number of digits of the decimal rendering of a natural number. -/
def decimalLength (n : Nat) : Nat :=
  if n = 0 then 1 else (Nat.digits 10 n).length

/-- Number of characters of the decimal rendering of an integer (`%d`): its
digits, with one more character for the minus sign when it is negative. -/
def intDecimalLength (n : Int) : Nat :=
  if n < 0 then decimalLength n.natAbs + 1 else decimalLength n.toNat

/-- Column of the `|` in the two blank gutter lines of a location block,
`fmt.Sprintf("%-*s |", rowNumWidth, "")`: the padding, then a space. -/
def LocBlock.barColumnBlank (b : LocBlock) : Nat :=
  b.rowNumWidth + 1

/-- Column of the `|` in the gutter line that carries the row number,
`fmt.Sprintf("%-*d |", rowNumWidth, row+1)`: the number, padded on the right
to `rowNumWidth` when it is shorter, then a space. -/
def LocBlock.barColumnRow (b : LocBlock) : Nat :=
  max b.rowNumWidth (decimalLength b.row) + 1

/-- A file of nine empty lines, then `int add(void);` on the tenth. -/
def sampleTenLines : Bytes := "\n\n\n\n\n\n\n\n\nint add(void);\n".toList

mutual
/-- The nodes of a tree in depth-first pre-order, the root first. -/
def preorder : Node → List Node
  | Node.mk t e s f p cs i => Node.mk t e s f p cs i :: preorderIn cs
/-- The nodes of a list of trees in depth-first pre-order. -/
def preorderIn : List Node → List Node
  | [] => []
  | c :: cs => preorder c ++ preorderIn cs
end

/-- The first error node of a tree in depth-first pre-order, if there is one. -/
def firstErrorNode (n : Node) : Option Node :=
  (preorder n).find? fun m => m.IsError

/-- The declaration `int x;` starting a line: no function declarator. -/
def samplePlain (start row : Nat) : Node :=
  Node.mk "declaration" false start (start + 6) ⟨row, 0⟩
    [sampleLeaf "primitive_type" start 3 row 0, sampleId (start + 4) 1 row 4,
     sampleLeaf ";" (start + 5) 1 row 5]
    none

/-- Header `int x;` / `int y;`: two variables, no function. -/
def sampleHdrPlain : Bytes := "int x;\nint y;\n".toList

/-- Items of `sampleHdrPlain`. -/
def sampleHdrPlainItems : List Node := [samplePlain 0 0, samplePlain 7 1]

/-- Source `int mul(void){}`, one line. -/
def sampleSrcLoneMul : Bytes := "int mul(void){}\n".toList

/-- The file `int add(void);` followed by a stray `)` that no newline ends. -/
def sampleStray : Bytes := "int add(void);\n)".toList

/-- The error node tree-sitter makes of the stray `)` of `sampleStray`. -/
def sampleStrayError : Node :=
  Node.mk "ERROR" true 15 16 ⟨1, 0⟩ [sampleLeaf ")" 15 1 1 0] none

/-- The tree of `sampleStray`: the prototype, then the error node. -/
def sampleStrayTree : Tree :=
  Tree.mk (Node.mk "translation_unit" false 0 16 ⟨0, 0⟩ [sampleProto 0 3 0, sampleStrayError] none)
    (scanOf [sampleProto 0 3 0])

/-- Source `int add(void){}`, then the prototype `int mul(void);` on a last
line that no newline ends. -/
def sampleSrcLateProto : Bytes := "int add(void){}\nint mul(void);".toList

/-- Items of `sampleSrcLateProto`. -/
def sampleSrcLateProtoItems : List Node := [sampleDef 0 3 0, sampleProto 16 3 1]

/-- What `validateFns` reads of a captured node of the source: its view, the
location block of the node in the source file, and the position and location
block of its function identifier (`none` in a block's place when
`stringAtRow` cannot read the line). -/
def itemInfo (srcFname : String) (src : Bytes) (n : Node) :
    ItemView × Option LocBlock × Option (Point × Option LocBlock) :=
  (view src n, renderNodeLocString n srcFname src,
    (getFnIdNode n).map fun i => (i.StartPoint, renderNodeLocString i srcFname src))

/-- Reconciling the given items of the source against the queue the header
scan leaves ends in a violation: the first violation is raised at one of
these items. -/
def violationWithin (hdrFname : String) (hdr : Bytes) (ht : Tree) (srcFname : String)
    (src : Bytes) (items : List Node) : Prop :=
  ∃ cur q, scanMatches ht.Matches [] = some (cur, q) ∧
    (validateMatches hdrFname hdr srcFname src (scanOf items) q).1 ≠ Outcome.nil

/-- Source `int mul(void){}` / `int add(void){}`, one per line. -/
def sampleSrcMulAdd : Bytes := "int mul(void){}\nint add(void){}\n".toList

/-- Source `int mul(void){}` followed by a stray `)` on a line of its own. -/
def sampleSrcMulStray : Bytes := "int mul(void){}\n)\n".toList

/-- The tree of `sampleSrcMulStray`: the definition, then the error node of
the stray `)`. -/
def sampleSrcMulStrayTree : Tree :=
  Tree.mk (Node.mk "translation_unit" false 0 18 ⟨0, 0⟩
      [sampleDef 0 3 0, Node.mk "ERROR" true 16 17 ⟨1, 0⟩ [sampleLeaf ")" 16 1 1 0] none] none)
    (scanOf [sampleDef 0 3 0])

/-- A file system without files: every `os.ReadFile` fails. -/
def sampleReadFile (fname : String) : Except String Bytes :=
  Except.error ("open " ++ fname ++ ": no such file or directory")

/-- A parser for the empty file. -/
def sampleParse (_ : Bytes) : Tree :=
  sampleTree 0 []

theorem errorAtPair_ne_nil (msg : String) (n1 : Node) (fname1 : String) (fdata1 : Bytes)
    (n2 : Node) (fname2 : String) (fdata2 : Bytes) :
    errorAtPair msg n1 fname1 fdata1 n2 fname2 fdata2 ≠ Outcome.nil := by
  unfold errorAtPair makeError
  cases renderNodeLocString n1 fname1 fdata1 <;>
    cases renderNodeLocString n2 fname2 fdata2 <;> simp

theorem errorAt_ne_nil (msg : String) (n : Node) (fname : String) (fdata : Bytes) :
    errorAt msg n fname fdata ≠ Outcome.nil := by
  unfold errorAt makeError
  cases renderNodeLocString n fname fdata <;> simp

mutual
theorem assertNoParserErrors_eq_nil_iff (fname : String) (fdata : Bytes) :
    ∀ n : Node, assertNoParserErrors fname fdata n = Outcome.nil ↔ hasErrorNode n = false
  | Node.mk t e s f p cs i => by
    unfold assertNoParserErrors hasErrorNode
    cases e with
    | true => simp [errorAt_ne_nil]
    | false => simpa using assertNoParserErrorsChildren_eq_nil_iff fname fdata cs
theorem assertNoParserErrorsChildren_eq_nil_iff (fname : String) (fdata : Bytes) :
    ∀ cs : List Node,
      assertNoParserErrorsChildren fname fdata cs = Outcome.nil ↔ hasErrorNodeIn cs = false
  | [] => by simp [assertNoParserErrorsChildren, hasErrorNodeIn]
  | c :: cs => by
    unfold assertNoParserErrorsChildren hasErrorNodeIn
    have h1 := assertNoParserErrors_eq_nil_iff fname fdata c
    have h2 := assertNoParserErrorsChildren_eq_nil_iff fname fdata cs
    cases hc : assertNoParserErrors fname fdata c with
    | nil => simp [h1.mp hc, h2]
    | error l =>
      have : hasErrorNode c = true := by
        by_contra hne
        have := h1.mpr (by simpa using hne)
        simp [hc] at this
      simp [this]
    | panic =>
      have : hasErrorNode c = true := by
        by_contra hne
        have := h1.mpr (by simpa using hne)
        simp [hc] at this
      simp [this]
end

theorem validateFns_skip (hf : String) (h : Bytes) (sf : String) (s : Bytes) (n : Node)
    (q : List Node) (hs : isDefinition n = true ∨ isPlainDeclaration n = true)
    (hd : defId s n = none) :
    validateFns hf h sf s [n] q = (Outcome.nil, q) := by
  simp only [isDefinition, isPlainDeclaration, defId, isExempt, Bool.and_eq_true,
    decide_eq_true_eq, Option.isNone_iff_eq_none] at hs hd
  simp only [validateFns]
  by_cases hT : n.NodeType = "function_definition"
  · simp only [hT, if_true]
    cases hst : isStaticFn n s with
    | true => simp
    | false =>
      cases hi : getFnIdNode n with
      | none => simp
      | some i =>
        simp [hT, hst, hi] at hd
        simp [hd]
  · rcases hs with hs | hs
    · exact absurd hs hT
    · simp [hs.1, hs.2]

theorem validateFns_match (hf : String) (h : Bytes) (sf : String) (s : Bytes) (n d : Node)
    (q : List Node) (hd : defId s n = some (d.Content h)) :
    validateFns hf h sf s [n] (d :: q) = (Outcome.nil, q) := by
  simp only [defId, isDefinition, isExempt] at hd
  simp only [validateFns]
  by_cases hT : n.NodeType = "function_definition"
  · cases hst : isStaticFn n s with
    | true => simp [hT, hst] at hd
    | false =>
      cases hi : getFnIdNode n with
      | none => simp [hT, hst, hi] at hd
      | some i =>
        simp [hT, hst, hi] at hd
        have hm : ¬ d.Content h = ['m', 'a', 'i', 'n'] := hd.2 ▸ hd.1
        simp [hT, hi, hd.2, hm]
  · simp [hT] at hd

theorem validateFns_nil_inv (hf : String) (h : Bytes) (sf : String) (s : Bytes) (n : Node)
    (q q1 : List Node) (hr : validateFns hf h sf s [n] q = (Outcome.nil, q1)) :
    (isDefinition n = true ∨ isPlainDeclaration n = true) ∧
      ((defId s n = none ∧ q1 = q) ∨ ∃ d, q = d :: q1 ∧ defId s n = some (d.Content h)) := by
  simp only [validateFns] at hr
  simp only [isDefinition, isPlainDeclaration, defId, isExempt, Bool.and_eq_true,
    decide_eq_true_eq, Option.isNone_iff_eq_none]
  by_cases hT : n.NodeType = "function_definition"
  · simp only [hT, if_true] at hr
    cases hst : isStaticFn n s with
    | true =>
      simp [hst] at hr
      simp [hT, hst, hr]
    | false =>
      cases hi : getFnIdNode n with
      | none =>
        simp [hst, hi] at hr
        simp [hT, hst, hi, hr]
      | some i =>
        simp only [hst, hi] at hr
        by_cases hm : i.Content s = ['m', 'a', 'i', 'n']
        · simp [hm] at hr
          simp [hT, hst, hi, hm, hr]
        · cases q with
          | nil =>
            simp [hm] at hr
            exact absurd hr.1 (errorAt_ne_nil _ _ _ _)
          | cons d q' =>
            by_cases he : i.Content s = d.Content h
            · have hm2 : ¬ d.Content h = ['m', 'a', 'i', 'n'] := he ▸ hm
              simp [hm2, he] at hr
              simp [hT, hst, hi, hm2, he, hr]
            · simp only [String.toList, hm, he, if_false] at hr
              exact absurd (congrArg Prod.fst hr) (errorAtPair_ne_nil _ _ _ _ _ _ _)
  · simp only [hT, if_false] at hr
    by_cases hD : n.NodeType = "declaration"
    · cases hi : getFnIdNode n with
      | none =>
        simp [hD, hi] at hr
        simp [hT, hD, hi, hr]
      | some i =>
        simp [hD, hi] at hr
        exact absurd hr.1 (errorAt_ne_nil _ _ _ _)
    · simp [hD] at hr

theorem validateMatches_scanOf_cons (hf : String) (h : Bytes) (sf : String) (s : Bytes)
    (n : Node) (S q : List Node) :
    validateMatches hf h sf s (scanOf (n :: S)) q =
      match validateFns hf h sf s [n] q with
      | (Outcome.nil, q1) => validateMatches hf h sf s (scanOf S) q1
      | res => res := by
  simp only [scanOf, List.map_cons, validateMatches]

theorem validateMatches_nil_inv (hf : String) (h : Bytes) (sf : String) (s : Bytes) :
    ∀ (S q q1 : List Node), validateMatches hf h sf s (scanOf S) q = (Outcome.nil, q1) →
      sourceShape S ∧ queueIds h q = defIds s S ++ queueIds h q1 ∧
        q1 = q.drop (defIds s S).length
  | [], q, q1, hr => by
    simp only [scanOf, List.map_nil, validateMatches, Prod.mk.injEq, true_and] at hr
    simp [sourceShape, defIds, hr]
  | n :: S, q, q1, hr => by
    rw [validateMatches_scanOf_cons] at hr
    rcases hv : validateFns hf h sf s [n] q with ⟨o, q2⟩
    rw [hv] at hr
    cases o with
    | nil =>
      simp only at hr
      obtain ⟨hsh, hstep⟩ := validateFns_nil_inv hf h sf s n q q2 hv
      obtain ⟨ih1, ih2, ih3⟩ := validateMatches_nil_inv hf h sf s S q2 q1 hr
      refine ⟨?_, ?_, ?_⟩
      · intro m hm
        rcases List.mem_cons.mp hm with rfl | hm
        · exact hsh
        · exact ih1 m hm
      · rcases hstep with ⟨hnone, rfl⟩ | ⟨d, rfl, hsome⟩
        · simpa [defIds, List.filterMap_cons, hnone] using ih2
        · simp only [defIds, List.filterMap_cons, hsome, queueIds, List.map_cons,
            List.cons_append, List.cons.injEq, true_and]
          simpa [defIds, queueIds] using ih2
      · rcases hstep with ⟨hnone, rfl⟩ | ⟨d, rfl, hsome⟩
        · simpa [defIds, List.filterMap_cons, hnone] using ih3
        · simpa [defIds, List.filterMap_cons, hsome] using ih3
    | error l => simp at hr
    | panic => simp at hr

theorem validateMatches_nil_of (hf : String) (h : Bytes) (sf : String) (s : Bytes) :
    ∀ (S q : List Node), sourceShape S → defIds s S <+: queueIds h q →
      validateMatches hf h sf s (scanOf S) q = (Outcome.nil, q.drop (defIds s S).length)
  | [], q, _, _ => by
    simp [scanOf, validateMatches, defIds]
  | n :: S, q, hsh, hp => by
    rw [validateMatches_scanOf_cons]
    have hn := hsh n (List.mem_cons_self n S)
    have hS : sourceShape S := fun m hm => hsh m (List.mem_cons_of_mem n hm)
    cases hd : defId s n with
    | none =>
      have hp2 : defIds s S <+: queueIds h q := by
        simpa [defIds, List.filterMap_cons, hd] using hp
      rw [validateFns_skip hf h sf s n q hn hd]
      simp only
      rw [validateMatches_nil_of hf h sf s S q hS hp2]
      simp [defIds, List.filterMap_cons, hd]
    | some name =>
      cases q with
      | nil =>
        simp [defIds, List.filterMap_cons, hd, queueIds] at hp
      | cons d q2 =>
        have hp2 : name = d.Content h ∧ defIds s S <+: queueIds h q2 := by
          simpa [defIds, List.filterMap_cons, hd, queueIds, List.cons_prefix_cons] using hp
        rw [validateFns_match hf h sf s n d q2 (hp2.1 ▸ hd)]
        simp only
        rw [validateMatches_nil_of hf h sf s S q2 hS hp2.2]
        simp [defIds, List.filterMap_cons, hd]

theorem scanMatches_declarations :
    ∀ (H q : List Node), (∀ n ∈ H, n.NodeType = "declaration") →
      scanMatches (scanOf H) q = some (none, q ++ H.filterMap getFnIdNode)
  | [], q, _ => by simp [scanOf, scanMatches]
  | n :: H, q, hH => by
    have hn := hH n (List.mem_cons_self n H)
    have ih := fun q1 => scanMatches_declarations H q1
      (fun m hm => hH m (List.mem_cons_of_mem n hm))
    have hs : scanOf (n :: H) = QueryMatch.mk [n] :: scanOf H := rfl
    rw [hs, scanMatches]
    cases hi : getFnIdNode n with
    | none => simp [scanCaptures, hn, hi, ih]
    | some i => simp [scanCaptures, hn, hi, ih]

theorem queueIds_filterMap_getFnIdNode (h : Bytes) :
    ∀ (H : List Node), (∀ n ∈ H, n.NodeType = "declaration") →
      queueIds h (H.filterMap getFnIdNode) = protoIds h H
  | [], _ => rfl
  | n :: H, hH => by
    have hn := hH n (List.mem_cons_self n H)
    have ih := queueIds_filterMap_getFnIdNode h H
      (fun m hm => hH m (List.mem_cons_of_mem n hm))
    cases hi : getFnIdNode n with
    | none =>
      simpa [protoIds, protoId, List.filterMap_cons, hn, hi] using ih
    | some i =>
      simp only [protoIds, protoId, List.filterMap_cons, hn, hi, queueIds, List.map_cons,
        if_true, Option.map_some']
      simpa [protoIds, protoId, queueIds] using ih

theorem checkResidual_eq_nil_iff (hf : String) (h : Bytes) (q : List Node) :
    checkResidual hf h q = Outcome.nil ↔ q = [] := by
  cases q with
  | nil => simp [checkResidual]
  | cons d q => simp [checkResidual, errorAt_ne_nil]

/-- Split mode, after the header scan: the source passes exactly when its
definitions use up the queue in order. -/
theorem splitSource_eq_nil_iff (hf : String) (h : Bytes) (sf : String) (s : Bytes)
    (S q : List Node) (hS : sourceShape S) :
    (match validateMatches hf h sf s (scanOf S) q with
      | (Outcome.nil, q2) => checkResidual hf h q2
      | (err, _) => err) = Outcome.nil ↔ queueIds h q = defIds s S := by
  constructor
  · intro hv
    rcases hm : validateMatches hf h sf s (scanOf S) q with ⟨o, q2⟩
    rw [hm] at hv
    cases o with
    | nil =>
      simp only at hv
      obtain ⟨_, h2, _⟩ := validateMatches_nil_inv hf h sf s S q q2 hm
      rw [(checkResidual_eq_nil_iff hf h q2).mp hv] at h2
      simpa [queueIds] using h2
    | error l => simp at hv
    | panic => simp at hv
  · intro he
    have hp : defIds s S <+: queueIds h q := he ▸ List.prefix_refl _
    rw [validateMatches_nil_of hf h sf s S q hS hp]
    simp only
    rw [checkResidual_eq_nil_iff]
    have hl : (defIds s S).length = q.length := by
      rw [← he]; simp [queueIds]
    simp [hl]

theorem scanMatches_until_definition (f : Node) (R : List Node)
    (hf : f.NodeType = "function_definition") :
    ∀ (P q : List Node), (∀ n ∈ P, n.NodeType = "declaration") →
      scanMatches (scanOf (P ++ f :: R)) q =
        some (some (QueryMatch.mk [f], scanOf R), q ++ P.filterMap getFnIdNode)
  | [], q, _ => by
    have hs : scanOf ([] ++ f :: R) = QueryMatch.mk [f] :: scanOf R := rfl
    rw [hs, scanMatches]
    simp [scanCaptures, hf]
  | n :: P, q, hP => by
    have hn := hP n (List.mem_cons_self n P)
    have ih := fun q1 => scanMatches_until_definition f R hf P q1
      (fun m hm => hP m (List.mem_cons_of_mem n hm))
    have hs : scanOf (n :: P ++ f :: R) = QueryMatch.mk [n] :: scanOf (P ++ f :: R) := rfl
    rw [hs, scanMatches]
    cases hi : getFnIdNode n with
    | none => simp [scanCaptures, hn, hi, ih]
    | some i => simp [scanCaptures, hn, hi, ih]

/-- Header-only mode after `break outer`: the call of `validateFns` on the
current match and the loop over the remaining matches are one pass over the
scan from the first definition on. -/
theorem headerOnly_pass (hf : String) (h : Bytes) (sf : String) (s : Bytes) (f : Node)
    (R q : List Node) :
    (match validateFns hf h sf s (QueryMatch.mk [f]).Captures q with
      | (Outcome.nil, q1) =>
        match validateMatches hf h sf s (scanOf R) q1 with
        | (Outcome.nil, q2) => checkResidual hf h q2
        | (err, _) => err
      | (err, _) => err) =
    (match validateMatches hf h sf s (scanOf (f :: R)) q with
      | (Outcome.nil, q2) => checkResidual hf h q2
      | (err, _) => err) := by
  rw [validateMatches_scanOf_cons]
  rcases hv : validateFns hf h sf s [f] q with ⟨o, q1⟩
  cases o <;> simp

theorem isPrototype_declaration (n : Node) (hn : isPrototype n = true) :
    n.NodeType = "declaration" := by
  simp only [isPrototype, Bool.and_eq_true, decide_eq_true_eq] at hn
  exact hn.1

theorem protoIds_ne_nil (d : Bytes) (P : List Node) (hP : ∀ n ∈ P, isPrototype n = true)
    (hne : P ≠ []) : protoIds d P ≠ [] := by
  cases P with
  | nil => exact absurd rfl hne
  | cons n P =>
    have hn := hP n (List.mem_cons_self n P)
    simp only [isPrototype, Bool.and_eq_true, decide_eq_true_eq] at hn
    obtain ⟨i, hi⟩ := Option.isSome_iff_exists.mp hn.2
    simp [protoIds, protoId, List.filterMap_cons, hn.1, hi]

theorem beforeFirstDef_append_fromFirstDef (F : List Node) :
    beforeFirstDef F ++ fromFirstDef F = F :=
  List.takeWhile_append_dropWhile _ F

theorem fromFirstDef_head (F : List Node) (g : Node) (B : List Node)
    (hB : fromFirstDef F = g :: B) : g.NodeType = "function_definition" := by
  have h1 : (fromFirstDef F).head? = some g := by rw [hB]; rfl
  have h2 := List.head?_dropWhile_not (fun n => !isDefinition n) F
  unfold fromFirstDef at h1
  rw [h1] at h2
  simpa [isDefinition] using h2

theorem beforeFirstDef_not_definition (F : List Node) :
    ∀ n ∈ beforeFirstDef F, isDefinition n = false := by
  intro n hn
  have := List.mem_takeWhile_imp hn
  simpa using this

theorem queueIds_protoIdNodes (d : Bytes) (F : List Node) :
    queueIds d (protoIdNodes F) = protoIds d F := by
  induction F with
  | nil => rfl
  | cons n F ih =>
    by_cases hT : n.NodeType = "declaration"
    · cases hi : getFnIdNode n with
      | none => simpa [protoIdNodes, protoIds, protoId, queueIds, List.filterMap_cons, hT, hi]
          using ih
      | some i =>
        simp only [protoIdNodes, protoIds, protoId, queueIds, List.filterMap_cons, hT, hi,
          if_true, List.map_cons, Option.map_some']
        simpa [protoIdNodes, protoIds, protoId, queueIds] using ih
    · simpa [protoIdNodes, protoIds, protoId, queueIds, List.filterMap_cons, hT] using ih

theorem protoIdNodes_declarations (P : List Node) (hP : ∀ n ∈ P, n.NodeType = "declaration") :
    protoIdNodes P = P.filterMap getFnIdNode := by
  induction P with
  | nil => rfl
  | cons n P ih =>
    have hn := hP n (List.mem_cons_self n P)
    have := ih (fun m hm => hP m (List.mem_cons_of_mem n hm))
    simp only [protoIdNodes, List.filterMap_cons, hn, if_true] at this ⊢
    rw [this]

theorem protoIdNodes_no_prototype (R : List Node) (hR : ∀ n ∈ R, isPrototype n = false) :
    protoIdNodes R = [] := by
  induction R with
  | nil => rfl
  | cons n R ih =>
    have hn := hR n (List.mem_cons_self n R)
    have := ih (fun m hm => hR m (List.mem_cons_of_mem n hm))
    simp only [protoIdNodes] at this ⊢
    by_cases hT : n.NodeType = "declaration"
    · cases hi : getFnIdNode n with
      | none => simpa [List.filterMap_cons, hT, hi] using this
      | some i => simp [isPrototype, hT, hi] at hn
    · simpa [List.filterMap_cons, hT] using this

theorem protoIdNodes_append (A B : List Node) :
    protoIdNodes (A ++ B) = protoIdNodes A ++ protoIdNodes B := by
  simp [protoIdNodes, List.filterMap_append]

theorem defIds_append (d : Bytes) (A B : List Node) :
    defIds d (A ++ B) = defIds d A ++ defIds d B := by
  simp [defIds, List.filterMap_append]

theorem defIds_not_definition (d : Bytes) (A : List Node)
    (hA : ∀ n ∈ A, isDefinition n = false) : defIds d A = [] := by
  induction A with
  | nil => rfl
  | cons n A ih =>
    have hn := hA n (List.mem_cons_self n A)
    have := ih (fun m hm => hA m (List.mem_cons_of_mem n hm))
    simp only [defIds] at this ⊢
    simp [List.filterMap_cons, defId, hn, this]

/-- The loop `outer` on any scan: it panics when an item before the first
function definition is no declaration; otherwise it queues the prototypes
before the first function definition and stops there. -/
theorem scanMatches_eq (F q : List Node) :
    scanMatches (scanOf F) q =
      if ∀ n ∈ beforeFirstDef F, n.NodeType = "declaration" then
        some (match fromFirstDef F with
          | [] => none
          | g :: B => some (QueryMatch.mk [g], scanOf B),
          q ++ (beforeFirstDef F).filterMap getFnIdNode)
      else none := by
  induction F generalizing q with
  | nil => simp [scanOf, scanMatches, beforeFirstDef, fromFirstDef]
  | cons n F ih =>
    have hs : scanOf (n :: F) = QueryMatch.mk [n] :: scanOf F := rfl
    rw [hs, scanMatches]
    by_cases hD : n.NodeType = "declaration"
    · have hnd : isDefinition n = false := by simp [isDefinition, hD]
      have hb : beforeFirstDef (n :: F) = n :: beforeFirstDef F := by
        simp [beforeFirstDef, List.takeWhile_cons, hnd]
      have hfr : fromFirstDef (n :: F) = fromFirstDef F := by
        simp [fromFirstDef, List.dropWhile_cons, hnd]
      rw [hb, hfr]
      cases hi : getFnIdNode n with
      | none =>
        simp only [scanCaptures, hD, hi, if_true, ih, List.filterMap_cons, List.mem_cons,
          forall_eq_or_imp, true_and]
      | some i =>
        simp only [scanCaptures, hD, hi, if_true, ih, List.filterMap_cons, List.mem_cons,
          forall_eq_or_imp, true_and, List.append_assoc, List.singleton_append]
    · by_cases hF : n.NodeType = "function_definition"
      · have hnd : isDefinition n = true := by simp [isDefinition, hF]
        have hb : beforeFirstDef (n :: F) = [] := by
          simp [beforeFirstDef, List.takeWhile_cons, hnd]
        have hfr : fromFirstDef (n :: F) = n :: F := by
          simp [fromFirstDef, List.dropWhile_cons, hnd]
        rw [hb, hfr]
        simp [scanCaptures, hF]
      · have hnd : isDefinition n = false := by simp [isDefinition, hF]
        have hb : beforeFirstDef (n :: F) = n :: beforeFirstDef F := by
          simp [beforeFirstDef, List.takeWhile_cons, hnd]
        rw [hb]
        simp [scanCaptures, hD, hF]

/-- One pass of reconciliation followed by the residual check succeeds exactly
when the scan holds only definitions and declarations without function
declarator, and its definitions use up the queue in order. -/
theorem pass_eq_nil_iff (hf : String) (h : Bytes) (sf : String) (s : Bytes)
    (S q : List Node) :
    (match validateMatches hf h sf s (scanOf S) q with
      | (Outcome.nil, q2) => checkResidual hf h q2
      | (err, _) => err) = Outcome.nil ↔ sourceShape S ∧ queueIds h q = defIds s S := by
  constructor
  · intro hv
    rcases hm : validateMatches hf h sf s (scanOf S) q with ⟨o, q2⟩
    rw [hm] at hv
    cases o with
    | nil =>
      simp only at hv
      obtain ⟨h1, h2, _⟩ := validateMatches_nil_inv hf h sf s S q q2 hm
      rw [(checkResidual_eq_nil_iff hf h q2).mp hv] at h2
      exact ⟨h1, by simpa [queueIds] using h2⟩
    | error l => simp at hv
    | panic => simp at hv
  · rintro ⟨hS, he⟩
    exact (splitSource_eq_nil_iff hf h sf s S q hS).mpr he

theorem Validate_split_eq (hf : String) (h : Bytes) (hroot : Node) (H : List Node)
    (sf : String) (s : Bytes) (st : Tree) (hne : hf ≠ sf)
    (hroot0 : hasErrorNode hroot = false) (hsroot0 : hasErrorNode st.RootNode = false)
    (hdecl : ∀ n ∈ beforeFirstDef H, n.NodeType = "declaration") :
    Validate hf h (Tree.mk hroot (scanOf H)) sf s st =
      match validateMatches hf h sf s st.Matches (protoIdNodes (beforeFirstDef H)) with
      | (Outcome.nil, q2) => checkResidual hf h q2
      | (err, _) => err := by
  unfold Validate
  rw [scanMatches_eq, if_pos hdecl]
  simp only [(assertNoParserErrors_eq_nil_iff hf h hroot).mpr hroot0,
    (assertNoParserErrors_eq_nil_iff sf s st.RootNode).mpr hsroot0, List.nil_append,
    decide_eq_false hne, protoIdNodes_declarations _ hdecl]

theorem Validate_headerOnly_eq (f : String) (d : Bytes) (root : Node) (F : List Node)
    (st : Tree) (hroot0 : hasErrorNode root = false)
    (hdecl : ∀ n ∈ beforeFirstDef F, n.NodeType = "declaration") :
    Validate f d (Tree.mk root (scanOf F)) f d st =
      match fromFirstDef F with
      | [] =>
        match protoIdNodes (beforeFirstDef F) with
        | front :: _ => errorAt "declaration without matching definition" front f d
        | [] => makeError [renderErrorString "header-only file doesn't contain any definition"]
      | g :: B =>
        match validateMatches f d f d (scanOf (g :: B)) (protoIdNodes (beforeFirstDef F)) with
        | (Outcome.nil, q2) => checkResidual f d q2
        | (err, _) => err := by
  unfold Validate
  rw [scanMatches_eq, if_pos hdecl]
  simp only [(assertNoParserErrors_eq_nil_iff f d root).mpr hroot0, List.nil_append,
    decide_True, protoIdNodes_declarations _ hdecl]
  cases hB : fromFirstDef F with
  | nil => rfl
  | cons g B => exact headerOnly_pass f d f d g B _

theorem Validate_nil_root (hf : String) (h : Bytes) (ht : Tree) (sf : String) (s : Bytes)
    (st : Tree) (hv : Validate hf h ht sf s st = Outcome.nil) :
    hasErrorNode ht.RootNode = false := by
  rw [← assertNoParserErrors_eq_nil_iff hf h]
  unfold Validate at hv
  cases ha : assertNoParserErrors hf h ht.RootNode with
  | nil => rfl
  | error l => simp [ha] at hv
  | panic => simp [ha] at hv

theorem Validate_nil_declarations (hf : String) (h : Bytes) (hroot : Node) (H : List Node)
    (sf : String) (s : Bytes) (st : Tree)
    (hv : Validate hf h (Tree.mk hroot (scanOf H)) sf s st = Outcome.nil) :
    ∀ n ∈ beforeFirstDef H, n.NodeType = "declaration" := by
  by_contra hc
  unfold Validate at hv
  cases ha : assertNoParserErrors hf h hroot with
  | nil => simp [ha, scanMatches_eq, hc] at hv
  | error l => simp [ha] at hv
  | panic => simp [ha] at hv

theorem Validate_split_nil_sroot (hf : String) (h : Bytes) (ht : Tree) (sf : String)
    (s : Bytes) (st : Tree) (hne : hf ≠ sf) (hv : Validate hf h ht sf s st = Outcome.nil) :
    hasErrorNode st.RootNode = false := by
  rw [← assertNoParserErrors_eq_nil_iff sf s]
  unfold Validate at hv
  cases ha : assertNoParserErrors hf h ht.RootNode with
  | nil =>
    cases hm : scanMatches ht.Matches [] with
    | none => simp [ha, hm] at hv
    | some r =>
      obtain ⟨cur, q⟩ := r
      cases hs : assertNoParserErrors sf s st.RootNode with
      | nil => rfl
      | error l => simp [ha, hm, decide_eq_false hne, hs] at hv
      | panic => simp [ha, hm, decide_eq_false hne, hs] at hv
  | error l => simp [ha] at hv
  | panic => simp [ha] at hv

/-- Success in split mode, on any header and source. -/
theorem split_success_iff (hf : String) (h : Bytes) (hroot : Node)
    (H : List Node) (sf : String) (s : Bytes) (sroot : Node) (S : List Node) (hne : hf ≠ sf) :
    Validate hf h (Tree.mk hroot (scanOf H)) sf s (Tree.mk sroot (scanOf S)) = Outcome.nil ↔
      hasErrorNode hroot = false ∧ hasErrorNode sroot = false ∧
        (∀ n ∈ beforeFirstDef H, n.NodeType = "declaration") ∧ sourceShape S ∧
        protoIds h (beforeFirstDef H) = defIds s S := by
  constructor
  · intro hv
    have h1 := Validate_nil_root _ _ _ _ _ _ hv
    have h2 := Validate_split_nil_sroot _ _ _ _ _ _ hne hv
    have h3 := Validate_nil_declarations _ _ _ _ _ _ _ hv
    rw [Validate_split_eq hf h hroot H sf s _ hne h1 h2 h3, pass_eq_nil_iff,
      queueIds_protoIdNodes] at hv
    exact ⟨h1, h2, h3, hv⟩
  · rintro ⟨h1, h2, h3, h4⟩
    rw [Validate_split_eq hf h hroot H sf s _ hne h1 h2 h3, pass_eq_nil_iff,
      queueIds_protoIdNodes]
    exact h4

/-- Success in header-only mode, on any file. -/
theorem headerOnly_success_iff (f : String) (d : Bytes) (root : Node)
    (F : List Node) (st : Tree) :
    Validate f d (Tree.mk root (scanOf F)) f d st = Outcome.nil ↔
      hasErrorNode root = false ∧
        (∀ n ∈ beforeFirstDef F, n.NodeType = "declaration") ∧ fromFirstDef F ≠ [] ∧
        sourceShape (fromFirstDef F) ∧
        protoIds d (beforeFirstDef F) = defIds d (fromFirstDef F) := by
  constructor
  · intro hv
    have h1 := Validate_nil_root _ _ _ _ _ _ hv
    have h3 := Validate_nil_declarations _ _ _ _ _ _ _ hv
    rw [Validate_headerOnly_eq f d root F st h1 h3] at hv
    cases hB : fromFirstDef F with
    | nil =>
      rw [hB] at hv
      exfalso
      revert hv
      cases protoIdNodes (beforeFirstDef F) <;> simp [errorAt_ne_nil, makeError]
    | cons g B =>
      rw [hB] at hv
      simp only [pass_eq_nil_iff, queueIds_protoIdNodes] at hv
      exact ⟨h1, h3, List.cons_ne_nil _ _, hv⟩
  · rintro ⟨h1, h3, hne, h4⟩
    rw [Validate_headerOnly_eq f d root F st h1 h3]
    cases hB : fromFirstDef F with
    | nil => exact absurd hB hne
    | cons g B =>
      rw [hB] at h4
      simp only [pass_eq_nil_iff, queueIds_protoIdNodes]
      exact h4

theorem view_notDef (d : Bytes) :
    (fun n => !isDefinition n) = ItemView.notDef ∘ view d := rfl

theorem view_protoName (d : Bytes) : protoId d = ItemView.protoName ∘ view d := rfl

theorem view_defName (d : Bytes) : defId d = ItemView.defName ∘ view d := by
  funext n
  obtain ⟨t, e, sb, eb, p, cs, fi⟩ := n
  cases fi <;>
    simp [defId, isExempt, isDefinition, ItemView.defName, ItemView.isDef, view, getFnIdNode,
      Node.FnId, Node.NodeType]

theorem view_passable (d : Bytes) (n : Node) :
    (isDefinition n = true ∨ isPlainDeclaration n = true) ↔ (view d n).passable = true := by
  simp only [isDefinition, isPlainDeclaration, ItemView.passable, ItemView.isDef,
    ItemView.isDecl, view, Bool.or_eq_true, Bool.and_eq_true, decide_eq_true_eq]
  cases getFnIdNode n <;> simp

theorem view_beforeFirstDef (d : Bytes) (F : List Node) :
    (beforeFirstDef F).map (view d) = (F.map (view d)).takeWhile ItemView.notDef := by
  rw [List.takeWhile_map]; rfl

theorem view_fromFirstDef (d : Bytes) (F : List Node) :
    (fromFirstDef F).map (view d) = (F.map (view d)).dropWhile ItemView.notDef := by
  rw [List.dropWhile_map]; rfl

theorem view_protoIds (d : Bytes) (F : List Node) :
    protoIds d F = (F.map (view d)).filterMap ItemView.protoName := by
  rw [List.filterMap_map, ← view_protoName]; rfl

theorem view_defIds (d : Bytes) (F : List Node) :
    defIds d F = (F.map (view d)).filterMap ItemView.defName := by
  rw [List.filterMap_map, ← view_defName]; rfl

theorem view_sourceShape (d : Bytes) (F : List Node) :
    sourceShape F ↔ ∀ v ∈ F.map (view d), v.passable = true := by
  simp only [sourceShape, List.mem_map, forall_exists_index, and_imp,
    forall_apply_eq_imp_iff₂, view_passable d]

theorem view_declarations (d : Bytes) (F : List Node) :
    (∀ n ∈ F, n.NodeType = "declaration") ↔ ∀ v ∈ F.map (view d), v.isDecl = true := by
  simp only [List.mem_map, forall_exists_index, and_imp, forall_apply_eq_imp_iff₂,
    ItemView.isDecl, view, decide_eq_true_eq]

/-- Success in header-only mode depends on the views of the scan only. -/
theorem headerOnly_success_iff_view (f : String) (d : Bytes) (root : Node)
    (F : List Node) (st : Tree) :
    Validate f d (Tree.mk root (scanOf F)) f d st = Outcome.nil ↔
      hasErrorNode root = false ∧ headerOnlyOk (F.map (view d)) := by
  have hnil : fromFirstDef F ≠ [] ↔ (F.map (view d)).dropWhile ItemView.notDef ≠ [] := by
    rw [← view_fromFirstDef, ne_eq, ne_eq, List.map_eq_nil_iff]
  rw [headerOnly_success_iff, headerOnlyOk, view_declarations d,
    view_sourceShape d, view_protoIds d, view_defIds d, view_beforeFirstDef,
    view_fromFirstDef, hnil]

/-- Success in split mode depends on the views of the two scans only. -/
theorem split_success_iff_view (hf : String) (h : Bytes) (hroot : Node)
    (H : List Node) (sf : String) (s : Bytes) (sroot : Node) (S : List Node) (hne : hf ≠ sf) :
    Validate hf h (Tree.mk hroot (scanOf H)) sf s (Tree.mk sroot (scanOf S)) = Outcome.nil ↔
      hasErrorNode hroot = false ∧ hasErrorNode sroot = false ∧
        splitOk (H.map (view h)) (S.map (view s)) := by
  rw [split_success_iff hf h hroot H sf s sroot S hne, splitOk,
    view_declarations h, view_sourceShape s, view_protoIds h, view_defIds s,
    view_beforeFirstDef]

theorem filterMap_eq_nil_of {α β : Type} (f : α → Option β) (L : List α)
    (hL : ∀ v ∈ L, f v = none) : L.filterMap f = [] := by
  induction L with
  | nil => rfl
  | cons v L ih =>
    simp [List.filterMap_cons, hL v (List.mem_cons_self v L),
      ih (fun w hw => hL w (List.mem_cons_of_mem v hw))]

theorem ItemView.defName_notDef (v : ItemView) (hv : v.notDef = true) : v.defName = none := by
  simp only [ItemView.notDef, Bool.not_eq_true'] at hv
  simp [ItemView.defName, hv]

theorem ItemView.passable_notDef (v : ItemView) (hp : v.passable = true)
    (hv : v.notDef = true) : v.isDecl = true ∧ v.protoName = none := by
  simp only [ItemView.notDef, Bool.not_eq_true'] at hv
  simp only [ItemView.passable, hv, Bool.false_or, Bool.and_eq_true,
    Option.isNone_iff_eq_none] at hp
  refine ⟨hp.1, ?_⟩
  simp [ItemView.protoName, hp.2]

/-- Header-only success on a scan gives split success on its two parts, cut at
the first definition. -/
theorem splitOk_of_headerOnlyOk (V : List ItemView) (hV : headerOnlyOk V) :
    splitOk (V.takeWhile ItemView.notDef) (V.dropWhile ItemView.notDef) := by
  obtain ⟨h1, _, h3, h4⟩ := hV
  refine ⟨?_, h3, ?_⟩
  · rw [List.takeWhile_idem]; exact h1
  · rw [List.takeWhile_idem]; exact h4

/-- Split success gives header-only success on the two scans put one after the
other, when there is a definition at all and the header, from its first
definition on, holds nothing that reconciliation would look at. -/
theorem headerOnlyOk_of_splitOk (VH VS : List ItemView) (hV : splitOk VH VS)
    (hdef : ∃ v ∈ VH ++ VS, v.isDef = true)
    (hbody : ∀ v ∈ VH.dropWhile ItemView.notDef, v.passable = true ∧ v.defName = none) :
    headerOnlyOk (VH ++ VS) := by
  obtain ⟨h1, h2, h3⟩ := hV
  have hVH : VH.takeWhile ItemView.notDef ++ VH.dropWhile ItemView.notDef = VH :=
    List.takeWhile_append_dropWhile _ VH
  have hPnd : ∀ v ∈ VH.takeWhile ItemView.notDef, ItemView.notDef v = true :=
    fun v hv => List.mem_takeWhile_imp hv
  have hB : ∀ v ∈ VH.dropWhile ItemView.notDef ++ VS, v.passable = true := by
    intro v hv
    rcases List.mem_append.mp hv with hv | hv
    · exact (hbody v hv).1
    · exact h2 v hv
  have hsplit : VH ++ VS =
      VH.takeWhile ItemView.notDef ++ (VH.dropWhile ItemView.notDef ++ VS) := by
    rw [← List.append_assoc, hVH]
  have htake : (VH ++ VS).takeWhile ItemView.notDef =
      VH.takeWhile ItemView.notDef ++
        (VH.dropWhile ItemView.notDef ++ VS).takeWhile ItemView.notDef := by
    rw [hsplit, List.takeWhile_append_of_pos hPnd]
  have hdrop : (VH ++ VS).dropWhile ItemView.notDef =
      (VH.dropWhile ItemView.notDef ++ VS).dropWhile ItemView.notDef := by
    rw [hsplit, List.dropWhile_append_of_pos hPnd]
  have hT : ∀ v ∈ (VH.dropWhile ItemView.notDef ++ VS).takeWhile ItemView.notDef,
      v.isDecl = true ∧ v.protoName = none := by
    intro v hv
    exact ItemView.passable_notDef v
      (hB v ((List.takeWhile_prefix _).subset hv)) (List.mem_takeWhile_imp hv)
  have hTD : (VH.dropWhile ItemView.notDef ++ VS).filterMap ItemView.defName =
      ((VH.dropWhile ItemView.notDef ++ VS).dropWhile ItemView.notDef).filterMap
        ItemView.defName := by
    conv_lhs => rw [← List.takeWhile_append_dropWhile ItemView.notDef
      (VH.dropWhile ItemView.notDef ++ VS)]
    rw [List.filterMap_append, filterMap_eq_nil_of ItemView.defName _
      (fun v hv => ItemView.defName_notDef v (List.mem_takeWhile_imp hv)), List.nil_append]
  refine ⟨?_, ?_, ?_, ?_⟩
  · rw [htake]
    intro v hv
    rcases List.mem_append.mp hv with hv | hv
    · exact h1 v hv
    · exact (hT v hv).1
  · rw [hdrop]
    intro hnil
    obtain ⟨v, hv, hvd⟩ := hdef
    rw [hsplit] at hv
    rcases List.mem_append.mp hv with hv | hv
    · have := hPnd v hv
      simp [ItemView.notDef, hvd] at this
    · have := (List.dropWhile_eq_nil_iff.mp hnil) v hv
      simp [ItemView.notDef, hvd] at this
  · rw [hdrop]
    intro v hv
    exact hB v ((List.dropWhile_sublist _).subset hv)
  · rw [htake, hdrop, List.filterMap_append,
      filterMap_eq_nil_of ItemView.protoName _ (fun v hv => (hT v hv).2), List.append_nil,
      ← hTD, List.filterMap_append,
      filterMap_eq_nil_of ItemView.defName _ (fun v hv => (hbody v hv).2), List.nil_append]
    exact h3

theorem sourceShape_of_no_prototype (X : List Node) (hq : queryScan X)
    (hnp : ∀ n ∈ X, isPrototype n = false) : sourceShape X := by
  intro n hn
  rcases hq n hn with hd | hd
  · right
    have := hnp n hn
    simp only [isPrototype, hd, decide_True, Bool.true_and] at this
    cases hi : getFnIdNode n with
    | none => simp [isPlainDeclaration, hd, hi]
    | some i => simp [hi] at this
  · left; simp [isDefinition, hd]

theorem beforeFirstDef_declarations (X : List Node) (hq : queryScan X) :
    ∀ n ∈ beforeFirstDef X, n.NodeType = "declaration" := by
  intro n hn
  have hnd := beforeFirstDef_not_definition X n hn
  have hmem : n ∈ X := (List.takeWhile_prefix _).subset hn
  rcases hq n hmem with hd | hd
  · exact hd
  · simp [isDefinition, hd] at hnd

theorem checkResidual_drop (hf : String) (h : Bytes) (q : List Node) (k : Nat) (dk : Node)
    (hk : q[k]? = some dk) :
    checkResidual hf h (q.drop k) =
      errorAt "declaration without matching definition" dk hf h := by
  obtain ⟨hlt, rfl⟩ := List.getElem?_eq_some.mp hk
  rw [List.drop_eq_getElem_cons hlt]
  rfl

/-- A pass over definitions that use up the first `k` queued declarations
only ends in the residual error for the next one. -/
theorem residual_pass (hf : String) (h : Bytes) (sf : String) (s : Bytes) (S q : List Node)
    (k : Nat) (hS : sourceShape S) (hk : defIds s S = (queueIds h q).take k)
    (hlt : k < q.length) :
    ∃ dk, q[k]? = some dk ∧
      (match validateMatches hf h sf s (scanOf S) q with
        | (Outcome.nil, q2) => checkResidual hf h q2
        | (err, _) => err) = errorAt "declaration without matching definition" dk hf h := by
  have hlen : (defIds s S).length = k := by
    rw [hk, List.length_take, queueIds, List.length_map]
    omega
  have hp : defIds s S <+: queueIds h q := hk ▸ List.take_prefix k _
  refine ⟨q[k], List.getElem?_eq_getElem hlt, ?_⟩
  rw [validateMatches_nil_of hf h sf s S q hS hp, hlen]
  exact checkResidual_drop hf h q k _ (List.getElem?_eq_getElem hlt)

theorem Validate_split_residual (hf : String) (h : Bytes) (hroot : Node) (H : List Node)
    (sf : String) (s : Bytes) (sroot : Node) (S : List Node) (k : Nat)
    (hne : hf ≠ sf) (hroot0 : hasErrorNode hroot = false) (hsroot0 : hasErrorNode sroot = false)
    (hH : queryScan H) (hHp : ∀ n ∈ fromFirstDef H, isPrototype n = false)
    (hS : queryScan S) (hSp : ∀ n ∈ S, isPrototype n = false)
    (hk : defIds s S = (protoIds h H).take k) (hlt : k < (protoIds h H).length) :
    ∃ dk, (protoIdNodes H)[k]? = some dk ∧
      Validate hf h (Tree.mk hroot (scanOf H)) sf s (Tree.mk sroot (scanOf S)) =
        errorAt "declaration without matching definition" dk hf h := by
  have hq : protoIdNodes (beforeFirstDef H) = protoIdNodes H := by
    conv_rhs => rw [← beforeFirstDef_append_fromFirstDef H]
    rw [protoIdNodes_append, protoIdNodes_no_prototype _ hHp, List.append_nil]
  rw [Validate_split_eq hf h hroot H sf s _ hne hroot0 hsroot0
    (beforeFirstDef_declarations H hH), hq]
  rw [← queueIds_protoIdNodes] at hk hlt
  exact residual_pass hf h sf s S _ k (sourceShape_of_no_prototype S hS hSp) hk
    (by simpa [queueIds] using hlt)

theorem Validate_headerOnly_residual (f : String) (d : Bytes) (root : Node) (F : List Node)
    (k : Nat) (hroot0 : hasErrorNode root = false)
    (hF : queryScan F) (hFp : ∀ n ∈ fromFirstDef F, isPrototype n = false)
    (hk : defIds d F = (protoIds d F).take k) (hlt : k < (protoIds d F).length) :
    ∃ dk, (protoIdNodes F)[k]? = some dk ∧
      Validate f d (Tree.mk root (scanOf F)) f d (Tree.mk root (scanOf F)) =
        errorAt "declaration without matching definition" dk f d := by
  have hq : protoIdNodes (beforeFirstDef F) = protoIdNodes F := by
    conv_rhs => rw [← beforeFirstDef_append_fromFirstDef F]
    rw [protoIdNodes_append, protoIdNodes_no_prototype _ hFp, List.append_nil]
  have hdef : defIds d (fromFirstDef F) = defIds d F := by
    conv_rhs => rw [← beforeFirstDef_append_fromFirstDef F]
    rw [defIds_append, defIds_not_definition d _ (beforeFirstDef_not_definition F),
      List.nil_append]
  have hshape : sourceShape (fromFirstDef F) :=
    sourceShape_of_no_prototype _
      (fun n hn => hF n ((List.dropWhile_sublist _).subset hn)) hFp
  rw [Validate_headerOnly_eq f d root F _ hroot0 (beforeFirstDef_declarations F hF), hq]
  rw [← queueIds_protoIdNodes] at hk hlt
  have hlt2 : k < (protoIdNodes F).length := by simpa [queueIds] using hlt
  cases hB : fromFirstDef F with
  | nil =>
    rw [hB] at hdef
    have hk0 : k = 0 := by
      have hl := congrArg List.length hk
      rw [← hdef, List.length_take] at hl
      simp only [defIds, List.filterMap_nil, List.length_nil] at hl
      omega
    subst hk0
    cases hP : protoIdNodes F with
    | nil => simp [hP] at hlt2
    | cons front rest => exact ⟨front, by simp, rfl⟩
  | cons g B =>
    simp only
    rw [← hB]
    exact residual_pass f d f d _ _ k hshape (hdef ▸ hk) hlt2

/-- Header-only mode on a file without error nodes and without function
definition: `Validate` ends in the return of 'declaration without matching
definition' for the first prototype's identifier when there is a prototype,
and returns 'header-only file doesn't contain any definition' when there is
none. -/
theorem headerOnly_without_definition (f : String) (d : Bytes) (root : Node)
    (F : List Node) (st : Tree) (hroot0 : hasErrorNode root = false)
    (hF : ∀ n ∈ F, n.NodeType = "declaration") :
    Validate f d (Tree.mk root (scanOf F)) f d st =
      match protoIdNodes F with
      | front :: _ => errorAt "declaration without matching definition" front f d
      | [] =>
        Outcome.error [Line.msg "header-only file doesn't contain any definition"] := by
  have hnd : ∀ n ∈ F, (fun n => !isDefinition n) n = true := by
    intro n hn
    simp [isDefinition, hF n hn]
  have hb : beforeFirstDef F = F := List.takeWhile_eq_self_iff.mpr hnd
  have hfr : fromFirstDef F = [] := List.dropWhile_eq_nil_iff.mpr hnd
  rw [Validate_headerOnly_eq f d root F st hroot0 (hb.symm ▸ hF), hfr, hb]
  rfl

theorem protoIds_beforeFirstDef_subset (d : Bytes) (F : List Node) :
    protoIds d (beforeFirstDef F) ⊆ protoIds d F := by
  intro u hu
  simp only [protoIds, List.mem_filterMap] at hu ⊢
  obtain ⟨n, hn, hnu⟩ := hu
  exact ⟨n, (List.takeWhile_prefix _).subset hn, hnu⟩

/-- Never a silent pass, split mode: a source definition that is neither
static nor named `main` and whose identifier is that of no prototype of the
header keeps `Validate` from returning success. -/
theorem Validate_split_undeclared_ne_nil (hf : String) (h : Bytes) (hroot : Node)
    (H : List Node) (sf : String) (s : Bytes) (sroot : Node) (S : List Node)
    (n : Node) (u : Bytes) (hne : hf ≠ sf) (hn : n ∈ S) (hu : defId s n = some u)
    (hundecl : u ∉ protoIds h H) :
    Validate hf h (Tree.mk hroot (scanOf H)) sf s (Tree.mk sroot (scanOf S)) ≠ Outcome.nil := by
  intro hv
  rw [split_success_iff hf h hroot H sf s sroot S hne] at hv
  have hmem : u ∈ defIds s S := List.mem_filterMap.mpr ⟨n, hn, hu⟩
  rw [← hv.2.2.2.2] at hmem
  exact hundecl (protoIds_beforeFirstDef_subset h H hmem)

/-- Never a silent pass, header-only mode: a definition of the file that is
neither static nor named `main` and whose identifier is that of no prototype
of the file keeps `Validate` from returning success. -/
theorem Validate_headerOnly_undeclared_ne_nil (f : String) (d : Bytes) (root : Node)
    (F : List Node) (st : Tree) (n : Node) (u : Bytes) (hn : n ∈ F)
    (hu : defId d n = some u) (hundecl : u ∉ protoIds d F) :
    Validate f d (Tree.mk root (scanOf F)) f d st ≠ Outcome.nil := by
  intro hv
  rw [headerOnly_success_iff] at hv
  have hmem : u ∈ defIds d F := List.mem_filterMap.mpr ⟨n, hn, hu⟩
  rw [← beforeFirstDef_append_fromFirstDef F, defIds_append,
    defIds_not_definition d _ (beforeFirstDef_not_definition F), List.nil_append,
    ← hv.2.2.2.2] at hmem
  exact hundecl (protoIds_beforeFirstDef_subset d F hmem)

theorem scanOf_append (A B : List Node) : scanOf (A ++ B) = scanOf A ++ scanOf B := by
  simp [scanOf]

theorem validateMatches_append (hf : String) (h : Bytes) (sf : String) (s : Bytes) :
    ∀ (A B q : List Node),
      validateMatches hf h sf s (scanOf (A ++ B)) q =
        match validateMatches hf h sf s (scanOf A) q with
        | (Outcome.nil, q1) => validateMatches hf h sf s (scanOf B) q1
        | res => res
  | [], B, q => by simp [scanOf, validateMatches]
  | n :: A, B, q => by
    rw [List.cons_append, validateMatches_scanOf_cons, validateMatches_scanOf_cons]
    rcases validateFns hf h sf s [n] q with ⟨o, q1⟩
    cases o with
    | nil => exact validateMatches_append hf h sf s A B q1
    | error l => rfl
    | panic => rfl

theorem defId_getFnIdNode (s : Bytes) (n : Node) (u : Bytes) (hu : defId s n = some u) :
    ∃ i, getFnIdNode n = some i ∧ i.Content s = u := by
  unfold defId at hu
  split at hu
  · cases hi : getFnIdNode n with
    | none => simp [hi] at hu
    | some i => exact ⟨i, rfl, by simpa [hi] using hu⟩
  · simp at hu

/-- One step on a definition that needs a declaration, queue empty. -/
theorem validateFns_queue_empty (hf : String) (h : Bytes) (sf : String) (s : Bytes)
    (n i : Node) (u : Bytes) (hu : defId s n = some u) (hi : getFnIdNode n = some i) :
    validateFns hf h sf s [n] [] =
      (errorAt "definition without matching declaration" i hf h, []) := by
  simp only [defId, isDefinition, isExempt, hi] at hu
  simp only [validateFns]
  by_cases hT : n.NodeType = "function_definition"
  · cases hst : isStaticFn n s with
    | true => simp [hT, hst] at hu
    | false =>
      have hm : ¬ i.Content s = ['m', 'a', 'i', 'n'] := by
        intro hm
        simp [hT, hst, hm] at hu
      simp [hT, hi, hm]
  · simp [hT] at hu

/-- One step on a definition that needs a declaration, the queue front
carrying another identifier. -/
theorem validateFns_mismatch (hf : String) (h : Bytes) (sf : String) (s : Bytes)
    (n i d : Node) (q : List Node) (u : Bytes) (hu : defId s n = some u)
    (hi : getFnIdNode n = some i) (hne : d.Content h ≠ u) :
    validateFns hf h sf s [n] (d :: q) =
      (errorAtPair "declaration and definition not in order" d hf h i sf s, q) := by
  obtain ⟨i2, hi2, hc⟩ := defId_getFnIdNode s n u hu
  rw [hi] at hi2
  cases hi2
  simp only [defId, isDefinition, isExempt, hi] at hu
  simp only [validateFns]
  by_cases hT : n.NodeType = "function_definition"
  · cases hst : isStaticFn n s with
    | true => simp [hT, hst] at hu
    | false =>
      have hm : ¬ i.Content s = ['m', 'a', 'i', 'n'] := by
        intro hm
        simp [hT, hst, hm] at hu
      have hne2 : ¬ i.Content s = d.Content h := fun he => hne (he ▸ hc)
      simp [hT, hi, hm, hne2]
  · simp [hT] at hu

/-- The first violation met, when it is a definition that no queued
declaration names: 'definition without matching declaration' if the queue is
empty at that point, 'declaration and definition not in order' against the
queue front otherwise. -/
theorem validateMatches_first_undeclared (hf : String) (h : Bytes) (sf : String) (s : Bytes)
    (A : List Node) (n : Node) (B q q1 : List Node) (i : Node) (u : Bytes)
    (hA : validateMatches hf h sf s (scanOf A) q = (Outcome.nil, q1))
    (hu : defId s n = some u) (hi : getFnIdNode n = some i) (hund : u ∉ queueIds h q1) :
    (q1 = [] → validateMatches hf h sf s (scanOf (A ++ n :: B)) q =
        (errorAt "definition without matching declaration" i hf h, [])) ∧
    (∀ d q2, q1 = d :: q2 → validateMatches hf h sf s (scanOf (A ++ n :: B)) q =
        (errorAtPair "declaration and definition not in order" d hf h i sf s, q2)) := by
  have hstep : validateMatches hf h sf s (scanOf (A ++ n :: B)) q =
      match validateFns hf h sf s [n] q1 with
      | (Outcome.nil, q2) => validateMatches hf h sf s (scanOf B) q2
      | res => res := by
    rw [validateMatches_append, hA]
    simp only
    rw [validateMatches_scanOf_cons]
  constructor
  · intro hq1
    subst hq1
    rw [hstep, validateFns_queue_empty hf h sf s n i u hu hi]
    have := errorAt_ne_nil "definition without matching declaration" i hf h
    cases he : errorAt "definition without matching declaration" i hf h with
    | nil => exact absurd he this
    | error l => rfl
    | panic => rfl
  · intro d q2 hq1
    subst hq1
    have hne : d.Content h ≠ u := by
      intro he
      exact hund (by simp [queueIds, ← he])
    rw [hstep, validateFns_mismatch hf h sf s n i d q2 u hu hi hne]
    have := errorAtPair_ne_nil "declaration and definition not in order" d hf h i sf s
    cases he : errorAtPair "declaration and definition not in order" d hf h i sf s with
    | nil => exact absurd he this
    | error l => rfl
    | panic => rfl

/-- Swapping two neighbouring reconciled definitions of a well-ordered scan:
the pass stops at the first of the two places with 'declaration and definition
not in order', for the declaration queued at that place and the definition now
standing there. -/
theorem validateMatches_swapped (hf : String) (h : Bytes) (sf : String) (s : Bytes)
    (A : List Node) (x : Node) (M : List Node) (y : Node) (B q : List Node)
    (iy : Node) (ux uy : Bytes)
    (hshape : sourceShape (A ++ x :: (M ++ y :: B)))
    (hwell : defIds s (A ++ x :: (M ++ y :: B)) = queueIds h q)
    (hx : defId s x = some ux) (hy : defId s y = some uy) (hiy : getFnIdNode y = some iy)
    (hxy : ux ≠ uy) :
    ∃ di rest, q.drop (defIds s A).length = di :: rest ∧ di.Content h = ux ∧
      validateMatches hf h sf s (scanOf (A ++ y :: (M ++ x :: B))) q =
        (errorAtPair "declaration and definition not in order" di hf h iy sf s, rest) := by
  have hAshape : sourceShape A := fun n hn => hshape n (List.mem_append_left _ hn)
  have hsplit : queueIds h q = defIds s A ++ ux :: defIds s (M ++ y :: B) := by
    rw [← hwell, defIds_append]
    simp [defIds, List.filterMap_cons, hx]
  have hAp : defIds s A <+: queueIds h q := ⟨_, hsplit.symm⟩
  have hA := validateMatches_nil_of hf h sf s A q hAshape hAp
  have hdrop : queueIds h (q.drop (defIds s A).length) = ux :: defIds s (M ++ y :: B) := by
    have := congrArg (List.drop (defIds s A).length) hsplit
    rw [List.drop_left] at this
    simpa [queueIds, List.map_drop] using this
  cases hq1 : q.drop (defIds s A).length with
  | nil => simp [hq1, queueIds] at hdrop
  | cons di rest =>
    rw [hq1] at hdrop hA
    have hdi : di.Content h = ux := by
      simp only [queueIds, List.map_cons, List.cons.injEq] at hdrop
      exact hdrop.1
    refine ⟨di, rest, rfl, hdi, ?_⟩
    rw [validateMatches_append, hA]
    simp only
    rw [validateMatches_scanOf_cons,
      validateFns_mismatch hf h sf s y iy di rest uy hy hiy (hdi ▸ hxy)]
    have := errorAtPair_ne_nil "declaration and definition not in order" di hf h iy sf s
    cases he : errorAtPair "declaration and definition not in order" di hf h iy sf s with
    | nil => exact absurd he this
    | error l => rfl
    | panic => rfl

theorem getElem?_of_drop_eq_cons (q : List Node) (k : Nat) (di : Node) (rest : List Node)
    (hd : q.drop k = di :: rest) : q[k]? = some di := by
  have : (q.drop k)[0]? = some di := by rw [hd]; simp
  simpa using this

/-- Split mode, a well-ordered source with two neighbouring reconciled
definitions swapped: `Validate` ends in the return of 'declaration and
definition not in order' for the prototype at that place and the definition
now standing there. -/
theorem Validate_split_swapped (hf : String) (h : Bytes) (hroot : Node) (H : List Node)
    (sf : String) (s : Bytes) (sroot : Node)
    (A : List Node) (x : Node) (M : List Node) (y : Node) (B : List Node)
    (iy : Node) (ux uy : Bytes) (hne : hf ≠ sf)
    (hroot0 : hasErrorNode hroot = false) (hsroot0 : hasErrorNode sroot = false)
    (hH : ∀ n ∈ beforeFirstDef H, n.NodeType = "declaration")
    (hshape : sourceShape (A ++ x :: (M ++ y :: B)))
    (hwell : defIds s (A ++ x :: (M ++ y :: B)) = protoIds h (beforeFirstDef H))
    (hx : defId s x = some ux) (hy : defId s y = some uy) (hiy : getFnIdNode y = some iy)
    (hxy : ux ≠ uy) :
    ∃ di, (protoIdNodes (beforeFirstDef H))[(defIds s A).length]? = some di ∧
      di.Content h = ux ∧
      Validate hf h (Tree.mk hroot (scanOf H)) sf s
          (Tree.mk sroot (scanOf (A ++ y :: (M ++ x :: B)))) =
        errorAtPair "declaration and definition not in order" di hf h iy sf s := by
  rw [← queueIds_protoIdNodes] at hwell
  obtain ⟨di, rest, hdrop, hdi, hv⟩ :=
    validateMatches_swapped hf h sf s A x M y B _ iy ux uy hshape hwell hx hy hiy hxy
  refine ⟨di, getElem?_of_drop_eq_cons _ _ di rest hdrop, hdi, ?_⟩
  rw [Validate_split_eq hf h hroot H sf s _ hne hroot0 hsroot0 hH]
  simp only [hv]
  have := errorAtPair_ne_nil "declaration and definition not in order" di hf h iy sf s
  cases he : errorAtPair "declaration and definition not in order" di hf h iy sf s with
  | nil => exact absurd he this
  | error l => rfl
  | panic => rfl

/-- Header-only mode, prototypes followed by well-ordered definitions with two
neighbouring reconciled definitions swapped: `Validate` ends in the return of
'declaration and definition not in order' for the prototype at that place and
the definition now standing there. -/
theorem Validate_headerOnly_swapped (f : String) (d : Bytes) (root : Node) (st : Tree)
    (P A : List Node) (x : Node) (M : List Node) (y : Node) (B : List Node)
    (iy : Node) (ux uy : Bytes) (hroot0 : hasErrorNode root = false)
    (hP : ∀ n ∈ P, n.NodeType = "declaration")
    (hdefs : ∀ n ∈ A ++ x :: (M ++ y :: B), isDefinition n = true)
    (hwell : defIds d (A ++ x :: (M ++ y :: B)) = protoIds d P)
    (hx : defId d x = some ux) (hy : defId d y = some uy) (hiy : getFnIdNode y = some iy)
    (hxy : ux ≠ uy) :
    ∃ di, (protoIdNodes P)[(defIds d A).length]? = some di ∧ di.Content d = ux ∧
      Validate f d (Tree.mk root (scanOf (P ++ (A ++ y :: (M ++ x :: B))))) f d st =
        errorAtPair "declaration and definition not in order" di f d iy f d := by
  have hPnd : ∀ n ∈ P, (fun n => !isDefinition n) n = true := by
    intro n hn
    simp [isDefinition, hP n hn]
  have hdefs2 : ∀ n ∈ A ++ y :: (M ++ x :: B), isDefinition n = true := by
    intro n hn
    apply hdefs
    simp only [List.mem_append, List.mem_cons] at hn ⊢
    tauto
  obtain ⟨g, G, hG⟩ : ∃ g G, A ++ y :: (M ++ x :: B) = g :: G := by
    cases A with
    | nil => exact ⟨y, _, rfl⟩
    | cons a A => exact ⟨a, _, rfl⟩
  have hg : isDefinition g = true := hdefs2 g (by rw [hG]; exact List.mem_cons_self g G)
  have hb : beforeFirstDef (P ++ (A ++ y :: (M ++ x :: B))) = P := by
    unfold beforeFirstDef
    rw [List.takeWhile_append_of_pos hPnd, hG]
    simp [List.takeWhile_cons, hg]
  have hfr : fromFirstDef (P ++ (A ++ y :: (M ++ x :: B))) = g :: G := by
    unfold fromFirstDef
    rw [List.dropWhile_append_of_pos hPnd, hG]
    simp [List.dropWhile_cons, hg]
  rw [← queueIds_protoIdNodes] at hwell
  obtain ⟨di, rest, hdrop, hdi, hv⟩ :=
    validateMatches_swapped f d f d A x M y B _ iy ux uy
      (fun n hn => Or.inl (hdefs n hn)) hwell hx hy hiy hxy
  refine ⟨di, getElem?_of_drop_eq_cons _ _ di rest hdrop, hdi, ?_⟩
  rw [Validate_headerOnly_eq f d root _ st hroot0 (hb.symm ▸ hP), hfr, hb]
  simp only
  rw [← hG, hv]
  have := errorAtPair_ne_nil "declaration and definition not in order" di f d iy f d
  cases he : errorAtPair "declaration and definition not in order" di f d iy f d with
  | nil => exact absurd he this
  | error l => rfl
  | panic => rfl

/-- Split mode, the first violation met being a source definition that no
prototype of the header names: `Validate` ends in the return of 'definition
without matching declaration' when the queue is empty at that point, the
definition's identifier being rendered against the header's name and data,
and in the return of 'declaration and definition not in order' against the
queue front otherwise. -/
theorem Validate_split_first_undeclared (hf : String) (h : Bytes) (hroot : Node)
    (H : List Node) (sf : String) (s : Bytes) (sroot : Node)
    (A : List Node) (n : Node) (B q1 : List Node) (i : Node) (u : Bytes) (hne : hf ≠ sf)
    (hroot0 : hasErrorNode hroot = false) (hsroot0 : hasErrorNode sroot = false)
    (hH : ∀ n ∈ beforeFirstDef H, n.NodeType = "declaration")
    (hA : validateMatches hf h sf s (scanOf A) (protoIdNodes (beforeFirstDef H)) =
      (Outcome.nil, q1))
    (hu : defId s n = some u) (hi : getFnIdNode n = some i) (hund : u ∉ queueIds h q1) :
    (q1 = [] →
      Validate hf h (Tree.mk hroot (scanOf H)) sf s (Tree.mk sroot (scanOf (A ++ n :: B))) =
        errorAt "definition without matching declaration" i hf h) ∧
    (∀ d q2, q1 = d :: q2 →
      Validate hf h (Tree.mk hroot (scanOf H)) sf s (Tree.mk sroot (scanOf (A ++ n :: B))) =
        errorAtPair "declaration and definition not in order" d hf h i sf s) := by
  obtain ⟨h1, h2⟩ := validateMatches_first_undeclared hf h sf s A n B _ q1 i u hA hu hi hund
  rw [Validate_split_eq hf h hroot H sf s _ hne hroot0 hsroot0 hH]
  constructor
  · intro hq
    simp only [h1 hq]
    have := errorAt_ne_nil "definition without matching declaration" i hf h
    cases he : errorAt "definition without matching declaration" i hf h with
    | nil => exact absurd he this
    | error l => rfl
    | panic => rfl
  · intro d q2 hq
    simp only [h2 d q2 hq]
    have := errorAtPair_ne_nil "declaration and definition not in order" d hf h i sf s
    cases he : errorAtPair "declaration and definition not in order" d hf h i sf s with
    | nil => exact absurd he this
    | error l => rfl
    | panic => rfl

theorem stringAtRowTake_line (line post : Bytes) (hl : '\n' ∉ line) :
    stringAtRowTake (line ++ '\n' :: post) = some (line ++ ['\n']) := by
  induction line with
  | nil => simp [stringAtRowTake]
  | cons c line ih =>
    have hc : c ≠ '\n' := fun h => hl (h ▸ List.mem_cons_self c line)
    have hl2 : '\n' ∉ line := fun h => hl (List.mem_cons_of_mem c h)
    simp [stringAtRowTake, hc, ih hl2]

theorem stringAtRowTake_unterminated (line : Bytes) (hl : '\n' ∉ line) :
    stringAtRowTake line = none := by
  induction line with
  | nil => rfl
  | cons c line ih =>
    have hc : c ≠ '\n' := fun h => hl (h ▸ List.mem_cons_self c line)
    have hl2 : '\n' ∉ line := fun h => hl (List.mem_cons_of_mem c h)
    simp [stringAtRowTake, hc, ih hl2]

theorem stringAtRowSkip_line (line rest : Bytes) (k : Nat) (hl : '\n' ∉ line) :
    stringAtRowSkip (line ++ '\n' :: rest) (k + 1) = stringAtRowSkip rest k := by
  induction line with
  | nil => simp [stringAtRowSkip]
  | cons c line ih =>
    have hc : c ≠ '\n' := fun h => hl (h ▸ List.mem_cons_self c line)
    have hl2 : '\n' ∉ line := fun h => hl (List.mem_cons_of_mem c h)
    simp [stringAtRowSkip, hc, ih hl2]

theorem stringAtRowSkip_lines (pre : List Bytes) (rest : Bytes)
    (hpre : ∀ l ∈ pre, '\n' ∉ l) :
    stringAtRowSkip ((pre.map fun l => l ++ ['\n']).flatten ++ rest) pre.length = some rest := by
  induction pre with
  | nil => cases rest <;> simp [stringAtRowSkip]
  | cons l pre ih =>
    have h1 := hpre l (List.mem_cons_self l pre)
    have h2 := ih (fun m hm => hpre m (List.mem_cons_of_mem l hm))
    simp only [List.map_cons, List.flatten_cons, List.length_cons, List.append_assoc,
      List.singleton_append, List.cons_append]
    rw [stringAtRowSkip_line l _ pre.length h1]
    exact h2

/-- `stringAtRow` on a row that a newline ends: the text of the line, its
newline included.  The data is the lines `pre`, each ended by a newline, then
the line asked for, its newline, and anything after it. -/
theorem stringAtRow_terminated (pre : List Bytes) (line post : Bytes)
    (hpre : ∀ l ∈ pre, '\n' ∉ l) (hl : '\n' ∉ line) :
    stringAtRow ((pre.map fun l => l ++ ['\n']).flatten ++ (line ++ '\n' :: post)) pre.length =
      some (line ++ ['\n']) := by
  unfold stringAtRow
  rw [stringAtRowSkip_lines pre _ hpre]
  exact stringAtRowTake_line line post hl

/-- `stringAtRow` on the last row of data that no newline ends: the second
loop runs past the end of the data. -/
theorem stringAtRow_unterminated (pre : List Bytes) (line : Bytes)
    (hpre : ∀ l ∈ pre, '\n' ∉ l) (hl : '\n' ∉ line) :
    stringAtRow ((pre.map fun l => l ++ ['\n']).flatten ++ line) pre.length = none := by
  unfold stringAtRow
  rw [stringAtRowSkip_lines pre _ hpre]
  exact stringAtRowTake_unterminated line hl

theorem decimalLength_lt_ten (n : Nat) (h : n < 10) : decimalLength n = 1 := by
  unfold decimalLength
  split
  · rfl
  · rename_i hn
    rw [Nat.digits_of_lt 10 n hn h]
    rfl

theorem decimalLength_div_ten (n : Nat) (h : 10 ≤ n) :
    decimalLength n = decimalLength (n / 10) + 1 := by
  have hn : n ≠ 0 := by omega
  have hd : n / 10 ≠ 0 := by omega
  unfold decimalLength
  rw [if_neg hn, if_neg hd, Nat.digits_def' (by norm_num) (by omega)]
  rfl

theorem decimalLength_pos (n : Nat) : 0 < decimalLength n := by
  by_cases h : n < 10
  · rw [decimalLength_lt_ten n h]; exact Nat.one_pos
  · rw [decimalLength_div_ten n (by omega)]; exact Nat.succ_pos _

/-- The loop of `intToStringWidth` adds one to the width for every digit of
`n` after the first. -/
theorem intToStringWidthLoop_eq (fuel : Nat) :
    ∀ (n w : Nat), n ≤ fuel →
      intToStringWidthLoop fuel (n : Int) w = w + decimalLength n - 1 := by
  induction fuel with
  | zero =>
    intro n w h
    have : n = 0 := by omega
    subst this
    simp [intToStringWidthLoop, decimalLength]
  | succ fuel ih =>
    intro n w h
    unfold intToStringWidthLoop
    by_cases h10 : 10 ≤ n
    · have hc : (n : Int) ≥ 10 := by exact_mod_cast h10
      have hdiv : (n : Int) / 10 = ((n / 10 : Nat) : Int) := by norm_cast
      rw [if_pos hc, hdiv, ih (n / 10) (w + 1) (by omega), decimalLength_div_ten n h10]
      omega
    · have hc : ¬ (n : Int) ≥ 10 := by
        intro hge
        exact h10 (by exact_mod_cast hge)
      rw [if_neg hc, decimalLength_lt_ten n (by omega)]
      omega

/-- `intToStringWidth` on a number that is not negative: the number of its
decimal digits. -/
theorem intToStringWidth_nonneg (n : Nat) : intToStringWidth (n : Int) = decimalLength n := by
  unfold intToStringWidth
  have hneg : ¬ (n : Int) < 0 := by omega
  rw [if_neg hneg, Int.toNat_natCast, intToStringWidthLoop_eq n n 1 (Nat.le_refl n)]
  have := decimalLength_pos n
  omega

theorem errorAt_cases (msg : String) (n : Node) (fname : String) (fdata : Bytes) :
    (∃ l, errorAt msg n fname fdata = Outcome.error l) ∨
      errorAt msg n fname fdata = Outcome.panic := by
  unfold errorAt makeError
  cases renderNodeLocString n fname fdata with
  | none => exact Or.inr rfl
  | some b => exact Or.inl ⟨_, rfl⟩

mutual
/-- The result of `assertNoParserErrors`: `nil` on a tree without error node,
otherwise the return of 'syntax error' for the first error node in depth-first
pre-order. -/
theorem assertNoParserErrors_eq (fname : String) (fdata : Bytes) :
    ∀ n : Node, assertNoParserErrors fname fdata n =
      match firstErrorNode n with
      | none => Outcome.nil
      | some e => errorAt "syntax error" e fname fdata
  | Node.mk t e s f p cs i => by
    unfold assertNoParserErrors firstErrorNode preorder
    cases e with
    | true => simp [List.find?_cons, Node.IsError]
    | false =>
      simp only [Bool.false_eq_true, if_false, List.find?_cons, Node.IsError]
      exact assertNoParserErrorsChildren_eq fname fdata cs
theorem assertNoParserErrorsChildren_eq (fname : String) (fdata : Bytes) :
    ∀ cs : List Node, assertNoParserErrorsChildren fname fdata cs =
      match (preorderIn cs).find? fun m => m.IsError with
      | none => Outcome.nil
      | some e => errorAt "syntax error" e fname fdata
  | [] => by simp [assertNoParserErrorsChildren, preorderIn]
  | c :: cs => by
    unfold assertNoParserErrorsChildren preorderIn
    have h1 := assertNoParserErrors_eq fname fdata c
    have h2 := assertNoParserErrorsChildren_eq fname fdata cs
    rw [h1, List.find?_append]
    unfold firstErrorNode
    cases hc : (preorder c).find? fun m => m.IsError with
    | none => simpa using h2
    | some e =>
      have hor : (some e).or ((preorderIn cs).find? fun m => m.IsError) = some e := rfl
      rw [hor]
      rcases errorAt_cases "syntax error" e fname fdata with ⟨l, hl⟩ | hp
      · simp only [hl]
      · simp only [hp]
end

theorem renderNodeLocString_width (n : Node) (fname : String) (fdata : Bytes) (b : LocBlock)
    (hb : renderNodeLocString n fname fdata = some b) :
    b.fname = fname ∧ b.row = n.StartPoint.Row + 1 ∧ b.col = n.StartPoint.Column + 1 ∧
      b.rowNumWidth = decimalLength n.StartPoint.Row ∧
      stringAtRow fdata n.StartPoint.Row = some b.line := by
  unfold renderNodeLocString at hb
  cases hs : stringAtRow fdata n.StartPoint.Row with
  | none => simp [hs] at hb
  | some line =>
    simp only [hs, Option.some.injEq] at hb
    subst hb
    exact ⟨rfl, rfl, rfl, intToStringWidth_nonneg _, rfl⟩

/-- The `|` of the three gutter lines of a location block stand in the same
column exactly when the printed row number `row + 1` has no more digits than
the zero-based row the width is computed from. -/
theorem barColumn_eq_iff (n : Node) (fname : String) (fdata : Bytes) (b : LocBlock)
    (hb : renderNodeLocString n fname fdata = some b) :
    b.barColumnBlank = b.barColumnRow ↔
      decimalLength (n.StartPoint.Row + 1) ≤ decimalLength n.StartPoint.Row := by
  obtain ⟨_, h2, _, h4, _⟩ := renderNodeLocString_width n fname fdata b hb
  unfold LocBlock.barColumnBlank LocBlock.barColumnRow
  rw [h2, h4]
  omega

theorem protoIdNodes_eq_nil_iff (F : List Node) :
    protoIdNodes F = [] ↔ ∀ n ∈ F, isPrototype n = false := by
  constructor
  · intro h n hn
    unfold protoIdNodes at h
    rw [List.filterMap_eq_nil_iff] at h
    have := h n hn
    by_cases hT : n.NodeType = "declaration"
    · simp only [hT, if_true] at this
      simp [isPrototype, this]
    · simp [isPrototype, hT]
  · exact protoIdNodes_no_prototype F

theorem log_ten_min_int : Nat.log 10 9223372036854775808 = 18 := by
  rw [Nat.log_eq_iff (Or.inl (by norm_num))]
  norm_num

theorem decimalLength_min_int : decimalLength 9223372036854775808 = 19 := by
  unfold decimalLength
  rw [if_neg (by norm_num), Nat.digits_len 10 _ (by norm_num) (by norm_num), log_ten_min_int]

theorem intDecimalLength_min_int : intDecimalLength (-9223372036854775808) = 20 := by
  have habs : Int.natAbs (-9223372036854775808) = 9223372036854775808 := by decide
  have hneg : (-9223372036854775808 : Int) < 0 := by decide
  unfold intDecimalLength
  rw [if_pos hneg, habs, decimalLength_min_int]

theorem decimalLength_ten : decimalLength 10 = 2 := by
  norm_num [decimalLength]

/-- One step of `validateFns` on a function prototype, static or not: the
return of 'found declaration but expected definition' for the declaration,
whatever the queue holds, and the queue is left as it is. -/
theorem validateFns_prototype (hf : String) (h : Bytes) (sf : String) (s : Bytes) (p : Node)
    (q : List Node) (hp : isPrototype p = true) :
    validateFns hf h sf s [p] q =
      (errorAt "found declaration but expected definition" p sf s, q) := by
  simp only [isPrototype, Bool.and_eq_true, decide_eq_true_eq] at hp
  obtain ⟨i, hi⟩ := Option.isSome_iff_exists.mp hp.2
  have hT : ¬ p.NodeType = "function_definition" := by rw [hp.1]; decide
  simp [validateFns, hT, hp.1, hi]

/-- One step of `validateFns` on a declaration without function declarator:
no error, and the queue is left as it is. -/
theorem validateFns_plain (hf : String) (h : Bytes) (sf : String) (s : Bytes) (n : Node)
    (q : List Node) (hn : isPlainDeclaration n = true) :
    validateFns hf h sf s [n] q = (Outcome.nil, q) := by
  apply validateFns_skip hf h sf s n q (Or.inr hn)
  simp only [isPlainDeclaration, Bool.and_eq_true, decide_eq_true_eq] at hn
  simp [defId, isDefinition, hn.1]

/-- The first function prototype met once reconciliation has begun, no
violation coming before it. -/
theorem validateMatches_first_prototype (hf : String) (h : Bytes) (sf : String) (s : Bytes)
    (A : List Node) (p : Node) (B q q1 : List Node)
    (hA : validateMatches hf h sf s (scanOf A) q = (Outcome.nil, q1))
    (hp : isPrototype p = true) :
    validateMatches hf h sf s (scanOf (A ++ p :: B)) q =
      (errorAt "found declaration but expected definition" p sf s, q1) := by
  rw [validateMatches_append, hA]
  simp only
  rw [validateMatches_scanOf_cons, validateFns_prototype hf h sf s p q1 hp]
  rcases errorAt_cases "found declaration but expected definition" p sf s with ⟨l, hl⟩ | hl
  · simp only [hl]
  · simp only [hl]

/-- Split mode: the first function prototype of the source, no violation
coming before it, makes `Validate` end in the return of 'found declaration but
expected definition' for that declaration, rendered in the source file. -/
theorem Validate_split_first_prototype (hf : String) (h : Bytes) (hroot : Node)
    (H : List Node) (sf : String) (s : Bytes) (sroot : Node)
    (A : List Node) (p : Node) (B q1 : List Node) (hne : hf ≠ sf)
    (hroot0 : hasErrorNode hroot = false) (hsroot0 : hasErrorNode sroot = false)
    (hH : ∀ n ∈ beforeFirstDef H, n.NodeType = "declaration")
    (hA : validateMatches hf h sf s (scanOf A) (protoIdNodes (beforeFirstDef H)) =
      (Outcome.nil, q1))
    (hp : isPrototype p = true) :
    Validate hf h (Tree.mk hroot (scanOf H)) sf s (Tree.mk sroot (scanOf (A ++ p :: B))) =
      errorAt "found declaration but expected definition" p sf s := by
  rw [Validate_split_eq hf h hroot H sf s _ hne hroot0 hsroot0 hH]
  simp only [validateMatches_first_prototype hf h sf s A p B _ q1 hA hp]
  rcases errorAt_cases "found declaration but expected definition" p sf s with ⟨l, hl⟩ | hl
  · simp only [hl]
  · simp only [hl]

/-- Header-only mode: the first function prototype after the first definition,
no violation coming before it, makes `Validate` end in the return of 'found
declaration but expected definition' for that declaration. -/
theorem Validate_headerOnly_first_prototype (f : String) (d : Bytes) (root : Node)
    (st : Tree) (P : List Node) (g : Node) (A : List Node) (p : Node) (B q1 : List Node)
    (hroot0 : hasErrorNode root = false)
    (hP : ∀ n ∈ P, n.NodeType = "declaration") (hg : isDefinition g = true)
    (hA : validateMatches f d f d (scanOf (g :: A)) (protoIdNodes P) = (Outcome.nil, q1))
    (hp : isPrototype p = true) :
    Validate f d (Tree.mk root (scanOf (P ++ g :: (A ++ p :: B)))) f d st =
      errorAt "found declaration but expected definition" p f d := by
  have hPnd : ∀ n ∈ P, (fun n => !isDefinition n) n = true := by
    intro n hn
    simp [isDefinition, hP n hn]
  have hb : beforeFirstDef (P ++ g :: (A ++ p :: B)) = P := by
    unfold beforeFirstDef
    rw [List.takeWhile_append_of_pos hPnd]
    simp [List.takeWhile_cons, hg]
  have hfr : fromFirstDef (P ++ g :: (A ++ p :: B)) = g :: (A ++ p :: B) := by
    unfold fromFirstDef
    rw [List.dropWhile_append_of_pos hPnd]
    simp [List.dropWhile_cons, hg]
  rw [Validate_headerOnly_eq f d root _ st hroot0 (hb.symm ▸ hP), hfr, hb]
  simp only
  have happ : g :: (A ++ p :: B) = (g :: A) ++ p :: B := rfl
  rw [happ, validateMatches_first_prototype f d f d (g :: A) p B _ q1 hA hp]
  rcases errorAt_cases "found declaration but expected definition" p f d with ⟨l, hl⟩ | hl
  · simp only [hl]
  · simp only [hl]

/-- A header tree with an error node: `Validate` ends in the return of
'syntax error' for the first error node of the header, whatever the two files
hold. -/
theorem Validate_header_syntax_error (hf : String) (h : Bytes) (ht : Tree) (sf : String)
    (s : Bytes) (st : Tree) (e : Node) (he : firstErrorNode ht.RootNode = some e) :
    Validate hf h ht sf s st = errorAt "syntax error" e hf h := by
  unfold Validate
  rw [assertNoParserErrors_eq, he]
  rcases errorAt_cases "syntax error" e hf h with ⟨l, hl⟩ | hl
  · simp only [hl]
  · simp only [hl]

/-- Split mode, a header tree without error node and a source tree with one:
`Validate` ends in the return of 'syntax error' for the first error node of
the source, whatever the source's scan holds. -/
theorem Validate_source_syntax_error (hf : String) (h : Bytes) (hroot : Node)
    (H : List Node) (sf : String) (s : Bytes) (st : Tree) (e : Node) (hne : hf ≠ sf)
    (hroot0 : hasErrorNode hroot = false)
    (hH : ∀ n ∈ beforeFirstDef H, n.NodeType = "declaration")
    (he : firstErrorNode st.RootNode = some e) :
    Validate hf h (Tree.mk hroot (scanOf H)) sf s st = errorAt "syntax error" e sf s := by
  unfold Validate
  rw [scanMatches_eq, if_pos hH]
  simp only [(assertNoParserErrors_eq_nil_iff hf h hroot).mpr hroot0, decide_eq_false hne]
  rw [assertNoParserErrors_eq, he]
  rcases errorAt_cases "syntax error" e sf s with ⟨l, hl⟩ | hl
  · simp only [hl]
  · simp only [hl]

theorem renderNodeLocString_point (i j : Node) (fname : String) (fdata : Bytes)
    (hij : i.StartPoint = j.StartPoint) :
    renderNodeLocString i fname fdata = renderNodeLocString j fname fdata := by
  unfold renderNodeLocString
  rw [hij]

theorem errorAt_congr (msg : String) (n m : Node) (f g : String) (d e : Bytes)
    (hr : renderNodeLocString n f d = renderNodeLocString m g e) :
    errorAt msg n f d = errorAt msg m g e := by
  unfold errorAt
  rw [hr]

theorem errorAtPair_congr (msg : String) (k : Node) (hf : String) (h : Bytes) (n m : Node)
    (f g : String) (d e : Bytes)
    (hr : renderNodeLocString n f d = renderNodeLocString m g e) :
    errorAtPair msg k hf h n f d = errorAtPair msg k hf h m g e := by
  unfold errorAtPair
  rw [hr]

/-- One step of `validateFns` depends on the captured node through its
`itemInfo` only. -/
theorem validateFns_congr (hf : String) (h : Bytes) (sf : String) (s s2 : Bytes)
    (n n2 : Node) (q : List Node) (hinfo : itemInfo sf s n = itemInfo sf s2 n2) :
    validateFns hf h sf s [n] q = validateFns hf h sf s2 [n2] q := by
  simp only [itemInfo, view, Prod.mk.injEq, ItemView.mk.injEq] at hinfo
  obtain ⟨⟨hT, hst, hname⟩, hloc, hid⟩ := hinfo
  simp only [validateFns, hT, hst]
  cases hi : getFnIdNode n with
  | none =>
    cases hi2 : getFnIdNode n2 with
    | none => rfl
    | some i2 => simp [hi, hi2] at hid
  | some i =>
    cases hi2 : getFnIdNode n2 with
    | none => simp [hi, hi2] at hid
    | some i2 =>
      simp only [hi, hi2, Option.map_some', Option.some.injEq, Prod.mk.injEq] at hid hname
      have hp : renderNodeLocString i hf h = renderNodeLocString i2 hf h :=
        renderNodeLocString_point i i2 hf h hid.1
      simp only [hname]
      rw [errorAt_congr "found declaration but expected definition" n n2 sf sf s s2 hloc,
        errorAt_congr "definition without matching declaration" i i2 hf hf h h hp]
      cases q with
      | nil => rfl
      | cons d q =>
        simp only
        rw [errorAtPair_congr "declaration and definition not in order" d hf h i i2 sf sf s s2
          hid.2]

/-- A pass of reconciliation depends on the captured nodes through their
`itemInfo` only. -/
theorem validateMatches_congr (hf : String) (h : Bytes) (sf : String) (s s2 : Bytes) :
    ∀ (A A2 q : List Node), A.map (itemInfo sf s) = A2.map (itemInfo sf s2) →
      validateMatches hf h sf s (scanOf A) q = validateMatches hf h sf s2 (scanOf A2) q
  | [], [], _, _ => rfl
  | [], _ :: _, _, hm => by simp at hm
  | _ :: _, [], _, hm => by simp at hm
  | n :: A, n2 :: A2, q, hm => by
    simp only [List.map_cons, List.cons.injEq] at hm
    rw [validateMatches_scanOf_cons, validateMatches_scanOf_cons,
      validateFns_congr hf h sf s s2 n n2 q hm.1]
    rcases validateFns hf h sf s2 [n2] q with ⟨o, q1⟩
    cases o with
    | nil => exact validateMatches_congr hf h sf s s2 A A2 q1 hm.2
    | error l => rfl
    | panic => rfl

/-- A pass that ends in a violation within its first items is that pass on
those items alone. -/
theorem validateMatches_fail_fast (hf : String) (h : Bytes) (sf : String) (s : Bytes)
    (A B q : List Node)
    (hv : (validateMatches hf h sf s (scanOf A) q).1 ≠ Outcome.nil) :
    validateMatches hf h sf s (scanOf (A ++ B)) q = validateMatches hf h sf s (scanOf A) q := by
  rw [validateMatches_append]
  rcases hm : validateMatches hf h sf s (scanOf A) q with ⟨o, q1⟩
  rw [hm] at hv
  cases o with
  | nil => exact absurd rfl hv
  | error l => rfl
  | panic => rfl

mutual
/-- The flag `hasErrorNode` says that some node of the tree is an error node. -/
theorem hasErrorNode_iff : ∀ n : Node, hasErrorNode n = true ↔ ∃ m ∈ preorder n, m.IsError = true
  | Node.mk t e s f p cs i => by
    unfold hasErrorNode preorder
    have ih := hasErrorNodeIn_iff cs
    simp only [Bool.or_eq_true, List.mem_cons, exists_eq_or_imp, ih, Node.IsError]
theorem hasErrorNodeIn_iff :
    ∀ cs : List Node, hasErrorNodeIn cs = true ↔ ∃ m ∈ preorderIn cs, m.IsError = true
  | [] => by simp [hasErrorNodeIn, preorderIn]
  | c :: cs => by
    unfold hasErrorNodeIn preorderIn
    have h1 := hasErrorNode_iff c
    have h2 := hasErrorNodeIn_iff cs
    simp only [Bool.or_eq_true, List.mem_append, h1, h2]
    constructor
    · rintro (⟨m, hm, he⟩ | ⟨m, hm, he⟩)
      · exact ⟨m, Or.inl hm, he⟩
      · exact ⟨m, Or.inr hm, he⟩
    · rintro ⟨m, hm | hm, he⟩
      · exact Or.inl ⟨m, hm, he⟩
      · exact Or.inr ⟨m, hm, he⟩
end

theorem firstErrorNode_eq_none_iff (n : Node) :
    firstErrorNode n = none ↔ hasErrorNode n = false := by
  unfold firstErrorNode
  rw [List.find?_eq_none, ← Bool.not_eq_true, hasErrorNode_iff]
  constructor
  · rintro h ⟨m, hm, he⟩
    exact h m hm he
  · intro h m hm he
    exact h ⟨m, hm, he⟩

/-- On the smallest `int`, `n = -2^63`, the statement `n *= -1` wraps round to
`n` itself, the loop does not run, and `intToStringWidth` gives 2, while the
decimal rendering of `n` has 20 characters.  No call passes this value:
`renderNodeLocString`, the only caller, passes a row number. -/
theorem intToStringWidth_smallest :
    wrapInt (-9223372036854775808 * -1) = -9223372036854775808 ∧
      intToStringWidth (-9223372036854775808) = 2 ∧
      (toString (-9223372036854775808 : Int)).length = 20 ∧
      intDecimalLength (-9223372036854775808) = 20 := by
  exact ⟨by decide, by decide, by decide, intDecimalLength_min_int⟩

/-! ## The claims -/

/-- C1. Split mode, both trees without error nodes, no function definition in
the header and no function prototype in the source: `Validate` returns success
exactly when the identifiers of the header's prototypes are, in order, the
identifiers of the source's definitions that are neither static nor named
`main`. -/
theorem Validate_split_nil_iff (hf : String) (h : Bytes) (hroot : Node) (H : List Node)
    (sf : String) (s : Bytes) (sroot : Node) (S : List Node)
    (hne : hf ≠ sf) (hH : queryScan H) (hS : queryScan S)
    (heh : hasErrorNode hroot = false) (hes : hasErrorNode sroot = false)
    (hnodef : ∀ n ∈ H, isDefinition n = false) (hnoproto : ∀ n ∈ S, isPrototype n = false) :
    Validate hf h (Tree.mk hroot (scanOf H)) sf s (Tree.mk sroot (scanOf S)) = Outcome.nil ↔
      protoIds h H = defIds s S := by
  have hdecl : ∀ n ∈ H, n.NodeType = "declaration" := by
    intro n hn
    rcases hH n hn with hd | hd
    · exact hd
    · have := hnodef n hn
      simp [isDefinition, hd] at this
  have hshape : sourceShape S := by
    intro n hn
    rcases hS n hn with hd | hd
    · right
      have := hnoproto n hn
      simp only [isPrototype, hd, decide_True, Bool.true_and] at this
      cases hi : getFnIdNode n with
      | none => simp [isPlainDeclaration, hd, hi]
      | some i => simp [hi] at this
    · left; simp [isDefinition, hd]
  unfold Validate
  simp only [(assertNoParserErrors_eq_nil_iff hf h hroot).mpr heh,
    (assertNoParserErrors_eq_nil_iff sf s sroot).mpr hes,
    scanMatches_declarations H [] hdecl, List.nil_append, decide_eq_false hne]
  rw [splitSource_eq_nil_iff hf h sf s S _ hshape, queueIds_filterMap_getFnIdNode h H hdecl]

theorem Validate_split_nil_iff_witness :
    Validate "header.h" sampleHdr (sampleTree 30 sampleHdrItems)
        "source.c" sampleSrc (sampleTree 32 sampleSrcItems) = Outcome.nil :=
  (Validate_split_nil_iff "header.h" sampleHdr _ sampleHdrItems "source.c" sampleSrc _
    sampleSrcItems (by decide) (by decide) (by decide) (by decide) (by decide)
    (by decide) (by decide)).mpr (by decide)

/-- C2. Header-only mode, a file without error nodes whose scan is `n ≥ 1`
function prototypes followed by function definitions whose identifiers, the
static ones and `main` left out, are the prototypes' identifiers in the same
order: `Validate` returns success. -/
theorem Validate_headerOnly_nil (fname : String) (data : Bytes) (root : Node)
    (P Fs : List Node) (hroot : hasErrorNode root = false)
    (hP : ∀ n ∈ P, isPrototype n = true) (hne : P ≠ [])
    (hF : ∀ n ∈ Fs, isDefinition n = true) (hids : defIds data Fs = protoIds data P) :
    Validate fname data (Tree.mk root (scanOf (P ++ Fs)))
      fname data (Tree.mk root (scanOf (P ++ Fs))) = Outcome.nil := by
  have hdecl : ∀ n ∈ P, n.NodeType = "declaration" :=
    fun n hn => isPrototype_declaration n (hP n hn)
  cases Fs with
  | nil =>
    exact absurd (by simpa [defIds] using hids.symm) (protoIds_ne_nil data P hP hne)
  | cons f R =>
    have hfd : f.NodeType = "function_definition" := by
      simpa [isDefinition] using hF f (List.mem_cons_self f R)
    have hshape : sourceShape (f :: R) := fun n hn => Or.inl (hF n hn)
    unfold Validate
    simp only [(assertNoParserErrors_eq_nil_iff fname data root).mpr hroot,
      scanMatches_until_definition f R hfd P [] hdecl, List.nil_append, decide_True]
    rw [headerOnly_pass, splitSource_eq_nil_iff fname data fname data (f :: R) _ hshape,
      queueIds_filterMap_getFnIdNode data P hdecl, hids]

theorem Validate_headerOnly_nil_witness :
    Validate "fname.h" sampleHdrOnly (sampleTree 62 (sampleHdrOnlyProtos ++ sampleHdrOnlyDefs))
      "fname.h" sampleHdrOnly (sampleTree 62 (sampleHdrOnlyProtos ++ sampleHdrOnlyDefs)) =
        Outcome.nil :=
  Validate_headerOnly_nil "fname.h" sampleHdrOnly _ sampleHdrOnlyProtos sampleHdrOnlyDefs
    (by decide) (by decide) (List.cons_ne_nil _ _) (by decide) (by decide)

/-- C3 fails on a last line without newline. Split mode, the header
`int add(void); int sub(void);` on one line with no newline at its end, the
source defining `sub` before `add` (the well-ordered source with its two
definitions swapped): `Validate` panics in `stringAtRow` where OutOfOrderMatch
is due. -/
theorem Validate_swapped_panic :
    protoIds sampleHdrOneLine sampleHdrOneLineItems = ["add".toList, "sub".toList] ∧
      defIds sampleSrcSwapped sampleSrcItems = ["sub".toList, "add".toList] ∧
      Validate "header.h" sampleHdrOneLine (sampleTree 29 sampleHdrOneLineItems)
        "source.c" sampleSrcSwapped (sampleTree 32 sampleSrcItems) = Outcome.panic := by
  decide

/-- C4 fails in split mode. Header `int add(void);`, source defining `add`
and then `mul`, which no prototype names: the queue is empty when `mul` is
met, and `Validate` panics, because the location of `mul` (row 1 of the
source) is rendered against the header's data, which has no such line. -/
theorem Validate_undeclared_panic :
    protoIds sampleHdrAdd [sampleProto 0 3 0] = ["add".toList] ∧
      defIds sampleSrcMul sampleSrcItems = ["add".toList, "mul".toList] ∧
      Validate "header.h" sampleHdrAdd (sampleTree 15 [sampleProto 0 3 0])
        "source.c" sampleSrcMul (sampleTree 32 sampleSrcItems) = Outcome.panic := by
  decide

/-- C5, as the code has it. A header whose prototypes all come before its
first function definition, and definitions whose identifiers (static ones and
`main` left out) are the identifiers of the first `k` prototypes in order,
with `k` smaller than the number of prototypes: `Validate` ends in the return
of 'declaration without matching definition' for the identifier of prototype
`k`, rendered in the header file.  In split mode the definitions are those of
the source, and the source holds no function prototype; in header-only mode
they are those of the single file, which holds no prototype after its first
definition.  The return gives the error when `stringAtRow` can read the line
of that identifier. -/
theorem Validate_residual (hf : String) (h : Bytes) (hroot : Node) (H : List Node)
    (sf : String) (s : Bytes) (sroot : Node) (S : List Node) (k : Nat)
    (hroot0 : hasErrorNode hroot = false)
    (hH : queryScan H) (hHp : ∀ n ∈ fromFirstDef H, isPrototype n = false)
    (hlt : k < (protoIds h H).length) :
    (hf ≠ sf → hasErrorNode sroot = false → queryScan S →
      (∀ n ∈ S, isPrototype n = false) → defIds s S = (protoIds h H).take k →
      ∃ dk, (protoIdNodes H)[k]? = some dk ∧
        Validate hf h (Tree.mk hroot (scanOf H)) sf s (Tree.mk sroot (scanOf S)) =
          errorAt "declaration without matching definition" dk hf h) ∧
    (defIds h H = (protoIds h H).take k →
      ∃ dk, (protoIdNodes H)[k]? = some dk ∧
        Validate hf h (Tree.mk hroot (scanOf H)) hf h (Tree.mk hroot (scanOf H)) =
          errorAt "declaration without matching definition" dk hf h) :=
  ⟨fun hne hsroot0 hS hSp hk =>
      Validate_split_residual hf h hroot H sf s sroot S k hne hroot0 hsroot0 hH hHp hS hSp hk hlt,
    fun hk => Validate_headerOnly_residual hf h hroot H k hroot0 hH hHp hk hlt⟩

theorem Validate_residual_witness :
    (∃ dk, (protoIdNodes sampleHdrItems)[1]? = some dk ∧
      Validate "header.h" sampleHdr (sampleTree 30 sampleHdrItems)
          "source.c" sampleSrcAdd (sampleTree 16 [sampleDef 0 3 0]) =
        errorAt "declaration without matching definition" dk "header.h" sampleHdr) ∧
    Validate "header.h" sampleHdr (sampleTree 30 sampleHdrItems)
        "source.c" sampleSrcAdd (sampleTree 16 [sampleDef 0 3 0]) =
      Outcome.error [Line.msg "declaration without matching definition",
        Line.loc ⟨"header.h", 2, 5, 1, "int sub(void);\n".toList⟩] ∧
    (∃ dk, (protoIdNodes sampleHdrTailItems)[1]? = some dk ∧
      Validate "fname.h" sampleHdrTail (sampleTree 46 sampleHdrTailItems)
          "fname.h" sampleHdrTail (sampleTree 46 sampleHdrTailItems) =
        errorAt "declaration without matching definition" dk "fname.h" sampleHdrTail) ∧
    Validate "fname.h" sampleHdrTail (sampleTree 46 sampleHdrTailItems)
        "fname.h" sampleHdrTail (sampleTree 46 sampleHdrTailItems) =
      Outcome.error [Line.msg "declaration without matching definition",
        Line.loc ⟨"fname.h", 2, 5, 1, "int sub(void);\n".toList⟩] :=
  ⟨(Validate_residual "header.h" sampleHdr (sampleTree 30 sampleHdrItems).RootNode
      sampleHdrItems "source.c" sampleSrcAdd (sampleTree 16 [sampleDef 0 3 0]).RootNode
      [sampleDef 0 3 0] 1 (by decide) (by decide) (by decide) (by decide)).1
      (by decide) (by decide) (by decide) (by decide) (by decide),
    by decide,
    (Validate_residual "fname.h" sampleHdrTail (sampleTree 46 sampleHdrTailItems).RootNode
      sampleHdrTailItems "fname.h" sampleHdrTail (sampleTree 46 sampleHdrTailItems).RootNode
      sampleHdrTailItems 1 (by decide) (by decide) (by decide) (by decide)).2 (by decide),
    by decide⟩

/-- C5 fails as stated. Split mode, header `sampleHdr` (prototypes `add`,
`sub`). With the source `int mul(void);` / `int add(void){}`, whose prototype
comes before the first definition, `Validate` returns 'found declaration but
expected definition' at the source's first line. With the header
`sampleHdrTail`, which ends in the body of `add`, and an empty source, the
definitions carry the identifier of the first prototype and `Validate`
reports `add` (row 1), not the second prototype `sub`. -/
theorem Validate_residual_counterexample :
    (protoIds sampleHdr sampleHdrItems ++ protoIds sampleSrcProto sampleSrcProtoItems =
        ["add".toList, "sub".toList, "mul".toList] ∧
      defIds sampleSrcProto sampleSrcProtoItems = ["add".toList] ∧
      (∀ n ∈ fromFirstDef (sampleHdrItems ++ sampleSrcProtoItems), isPrototype n = false) ∧
      Validate "header.h" sampleHdr (sampleTree 30 sampleHdrItems)
          "source.c" sampleSrcProto (sampleTree 31 sampleSrcProtoItems) =
        Outcome.error [Line.msg "found declaration but expected definition",
          Line.loc ⟨"source.c", 1, 1, 1, "int mul(void);\n".toList⟩]) ∧
    (protoIds sampleHdrTail sampleHdrTailItems = ["add".toList, "sub".toList] ∧
      defIds sampleHdrTail sampleHdrTailItems = ["add".toList] ∧
      (∀ n ∈ fromFirstDef sampleHdrTailItems, isPrototype n = false) ∧
      Validate "header.h" sampleHdrTail (sampleTree 46 sampleHdrTailItems)
          "source.c" [] (sampleTree 0 []) =
        Outcome.error [Line.msg "declaration without matching definition",
          Line.loc ⟨"header.h", 1, 5, 1, "int add(void);\n".toList⟩]) := by
  decide

/-- C7, as the code has it. For a split pair on which `Validate` returns
success, `Validate` in header-only mode on a single file without error nodes
whose scan is the header's items followed by the source's items returns
success too, provided the pair holds a function definition at all and the
header, from its first function definition on, holds only definitions that
are static, named `main` or without identifier, and declarations without
function declarator. -/
theorem Validate_split_to_headerOnly (hf : String) (h : Bytes) (hroot : Node) (H : List Node)
    (sf : String) (s : Bytes) (sroot : Node) (S : List Node)
    (f : String) (d : Bytes) (root : Node) (F : List Node)
    (hne : hf ≠ sf)
    (hv : Validate hf h (Tree.mk hroot (scanOf H)) sf s (Tree.mk sroot (scanOf S)) =
      Outcome.nil)
    (hroot0 : hasErrorNode root = false)
    (hF : F.map (view d) = H.map (view h) ++ S.map (view s))
    (hdef : ∃ n ∈ H ++ S, isDefinition n = true)
    (hbody : ∀ n ∈ fromFirstDef H,
      (isDefinition n = true ∨ isPlainDeclaration n = true) ∧ defId h n = none) :
    Validate f d (Tree.mk root (scanOf F)) f d (Tree.mk root (scanOf F)) = Outcome.nil := by
  rw [split_success_iff_view hf h hroot H sf s sroot S hne] at hv
  rw [headerOnly_success_iff_view, hF]
  refine ⟨hroot0, headerOnlyOk_of_splitOk _ _ hv.2.2 ?_ ?_⟩
  · obtain ⟨n, hn, hnd⟩ := hdef
    rcases List.mem_append.mp hn with hn | hn
    · exact ⟨view h n, List.mem_append_left _ (List.mem_map_of_mem _ hn), hnd⟩
    · exact ⟨view s n, List.mem_append_right _ (List.mem_map_of_mem _ hn), hnd⟩
  · rw [← view_fromFirstDef]
    intro v hv2
    obtain ⟨n, hn, rfl⟩ := List.mem_map.mp hv2
    have hb := hbody n hn
    refine ⟨(view_passable h n).mp hb.1, ?_⟩
    have := hb.2
    rwa [view_defName] at this

theorem Validate_split_to_headerOnly_witness :
    Validate "fname.h" sampleHdrOnly (sampleTree 62 (sampleHdrOnlyProtos ++ sampleHdrOnlyDefs))
      "fname.h" sampleHdrOnly (sampleTree 62 (sampleHdrOnlyProtos ++ sampleHdrOnlyDefs)) =
        Outcome.nil :=
  Validate_split_to_headerOnly "header.h" sampleHdr (sampleTree 30 sampleHdrItems).RootNode
    sampleHdrItems "source.c" sampleSrc (sampleTree 32 sampleSrcItems).RootNode sampleSrcItems
    "fname.h" sampleHdrOnly _ (sampleHdrOnlyProtos ++ sampleHdrOnlyDefs)
    (by decide) (by decide) (by decide) (by decide)
    ⟨sampleDef 0 3 0, by simp [sampleSrcItems], by decide⟩ (by decide)

/-- C7 fails as stated. Two empty files validate in split mode, and the empty
file they make together fails in header-only mode (no definition); the header
`sampleHdrBody`, which has a body, validates with the source
`int add(void){}`, and the file made of the two fails in header-only mode
with OutOfOrderMatch. -/
theorem Validate_split_to_headerOnly_counterexample :
    (Validate "header.h" [] (sampleTree 0 []) "source.c" [] (sampleTree 0 []) = Outcome.nil ∧
      Validate "header.h" [] (sampleTree 0 ([] ++ [])) "header.h" [] (sampleTree 0 ([] ++ [])) =
        Outcome.error [Line.msg "header-only file doesn't contain any definition"]) ∧
    (Validate "header.h" sampleHdrBody (sampleTree 31 sampleHdrBodyItems)
        "source.c" sampleSrcAdd (sampleTree 16 [sampleDef 0 3 0]) = Outcome.nil ∧
      sampleBodyConcatItems.map (view sampleBodyConcat) =
        sampleHdrBodyItems.map (view sampleHdrBody) ++
          [sampleDef 0 3 0].map (view sampleSrcAdd) ∧
      Validate "header.h" sampleBodyConcat (sampleTree 47 sampleBodyConcatItems)
        "header.h" sampleBodyConcat (sampleTree 47 sampleBodyConcatItems) =
        Outcome.error [Line.msg "declaration and definition not in order",
          Line.loc ⟨"header.h", 1, 5, 1, "int add(void);\n".toList⟩, Line.empty,
          Line.loc ⟨"header.h", 2, 5, 1, "int sub(void){}\n".toList⟩]) := by
  decide

/-- C8. When `Validate` in header-only mode returns success on a file, it
returns success in split mode on the pair made by cutting the file's scan at
its first function definition, the header holding the items before that
definition and the source that definition and the items after it; and so it
does on every pair of files parsed without error nodes whose scans show the
same items, whatever their names, offsets and positions. -/
theorem Validate_headerOnly_to_split (f : String) (d : Bytes) (root : Node) (F : List Node)
    (hf sf : String)
    (hv : Validate f d (Tree.mk root (scanOf F)) f d (Tree.mk root (scanOf F)) = Outcome.nil)
    (hne : hf ≠ sf) :
    Validate hf d (Tree.mk root (scanOf (beforeFirstDef F)))
        sf d (Tree.mk root (scanOf (fromFirstDef F))) = Outcome.nil ∧
      ∀ (h : Bytes) (hroot : Node) (H : List Node) (s : Bytes) (sroot : Node) (S : List Node),
        hasErrorNode hroot = false → hasErrorNode sroot = false →
        H.map (view h) = (beforeFirstDef F).map (view d) →
        S.map (view s) = (fromFirstDef F).map (view d) →
        Validate hf h (Tree.mk hroot (scanOf H)) sf s (Tree.mk sroot (scanOf S)) =
          Outcome.nil := by
  rw [headerOnly_success_iff_view] at hv
  have hgen : ∀ (h : Bytes) (hroot : Node) (H : List Node) (s : Bytes) (sroot : Node)
      (S : List Node), hasErrorNode hroot = false → hasErrorNode sroot = false →
      H.map (view h) = (beforeFirstDef F).map (view d) →
      S.map (view s) = (fromFirstDef F).map (view d) →
      Validate hf h (Tree.mk hroot (scanOf H)) sf s (Tree.mk sroot (scanOf S)) =
        Outcome.nil := by
    intro h hroot H s sroot S hroot0 hsroot0 hH hS
    rw [split_success_iff_view hf h hroot H sf s sroot S hne, hH, hS, view_beforeFirstDef,
      view_fromFirstDef]
    exact ⟨hroot0, hsroot0, splitOk_of_headerOnlyOk _ hv.2⟩
  exact ⟨hgen d root _ d root _ hv.1 hv.1 rfl rfl, hgen⟩

theorem Validate_headerOnly_to_split_witness :
    Validate "header.h" sampleHdrOnly
        (Tree.mk (sampleTree 62 (sampleHdrOnlyProtos ++ sampleHdrOnlyDefs)).RootNode
          (scanOf (beforeFirstDef (sampleHdrOnlyProtos ++ sampleHdrOnlyDefs))))
        "source.c" sampleHdrOnly
        (Tree.mk (sampleTree 62 (sampleHdrOnlyProtos ++ sampleHdrOnlyDefs)).RootNode
          (scanOf (fromFirstDef (sampleHdrOnlyProtos ++ sampleHdrOnlyDefs)))) = Outcome.nil ∧
      Validate "header.h" sampleHdr (sampleTree 30 sampleHdrItems)
        "source.c" sampleSrc (sampleTree 32 sampleSrcItems) = Outcome.nil :=
  ⟨(Validate_headerOnly_to_split "fname.h" sampleHdrOnly
      (sampleTree 62 (sampleHdrOnlyProtos ++ sampleHdrOnlyDefs)).RootNode
      (sampleHdrOnlyProtos ++ sampleHdrOnlyDefs) "header.h" "source.c"
      (by decide) (by decide)).1,
    (Validate_headerOnly_to_split "fname.h" sampleHdrOnly
      (sampleTree 62 (sampleHdrOnlyProtos ++ sampleHdrOnlyDefs)).RootNode
      (sampleHdrOnlyProtos ++ sampleHdrOnlyDefs) "header.h" "source.c"
      (by decide) (by decide)).2 sampleHdr (sampleTree 30 sampleHdrItems).RootNode
      sampleHdrItems sampleSrc (sampleTree 32 sampleSrcItems).RootNode sampleSrcItems
      (by decide) (by decide) (by decide) (by decide)⟩

/-- C9, as the code has it. In split mode the header scan stops at the first
function definition of the header: that definition and every item after it in
the header are left out, and `Validate` goes on with the source as if the
header ended before that definition. -/
theorem Validate_split_header_body_ignored (hf : String) (h : Bytes) (hroot : Node)
    (P : List Node) (d : Node) (R : List Node) (sf : String) (s : Bytes) (st : Tree)
    (hne : hf ≠ sf) (hP : ∀ n ∈ P, n.NodeType = "declaration")
    (hd : isDefinition d = true) :
    Validate hf h (Tree.mk hroot (scanOf (P ++ d :: R))) sf s st =
      Validate hf h (Tree.mk hroot (scanOf P)) sf s st := by
  have hdT : d.NodeType = "function_definition" := by simpa [isDefinition] using hd
  unfold Validate
  simp only [scanMatches_until_definition d R hdT P [] hP, scanMatches_declarations P [] hP,
    decide_eq_false hne]

theorem Validate_split_header_body_ignored_witness :
    Validate "header.h" sampleHdrBody (sampleTree 31 sampleHdrBodyItems)
        "source.c" sampleSrc (sampleTree 32 sampleSrcItems) =
      Validate "header.h" sampleHdrBody
        (Tree.mk (sampleTree 31 sampleHdrBodyItems).RootNode (scanOf [sampleProto 0 3 0]))
        "source.c" sampleSrc (sampleTree 32 sampleSrcItems) :=
  Validate_split_header_body_ignored "header.h" sampleHdrBody
    (sampleTree 31 sampleHdrBodyItems).RootNode [sampleProto 0 3 0] (sampleDef 15 3 1) []
    "source.c" sampleSrc (sampleTree 32 sampleSrcItems) (by decide) (by decide) (by decide)

/-- C9 fails as stated. Split mode, empty source. A header that is the one
definition `int sub(void){}` (not static, not `main`, met with an empty queue)
validates, where the claim has DefinitionWithoutDeclaration; and after the
prototype of `add` the same definition gives DeclarationWithoutDefinition for
`add`, where the claim has OutOfOrderMatch. -/
theorem Validate_split_header_body_counterexample :
    defIds sampleHdrLoneBody sampleHdrLoneBodyItems = ["sub".toList] ∧
      Validate "header.h" sampleHdrLoneBody (sampleTree 16 sampleHdrLoneBodyItems)
        "source.c" [] (sampleTree 0 []) = Outcome.nil ∧
      protoIds sampleHdrBody sampleHdrBodyItems = ["add".toList] ∧
      defIds sampleHdrBody sampleHdrBodyItems = ["sub".toList] ∧
      Validate "header.h" sampleHdrBody (sampleTree 31 sampleHdrBodyItems)
        "source.c" [] (sampleTree 0 []) =
        Outcome.error [Line.msg "declaration without matching definition",
          Line.loc ⟨"header.h", 1, 5, 1, "int add(void);\n".toList⟩] := by
  decide

/-- C10 fails on a last line without newline. Header-only mode, the file
`int add(void);` with no newline at its end: one prototype, no definition, no
error node, and `Validate` panics in `stringAtRow` where
DeclarationWithoutDefinition is due. -/
theorem Validate_headerOnly_no_definition_panic :
    hasErrorNode (sampleTree 14 sampleNoNewlineItems).RootNode = false ∧
      sampleNoNewlineItems.all isPrototype = true ∧
      Validate "fname.h" sampleNoNewline (sampleTree 14 sampleNoNewlineItems)
        "fname.h" sampleNoNewline (sampleTree 14 sampleNoNewlineItems) = Outcome.panic := by
  decide

/-- C11, as the code has it. Header-only mode, a file without error nodes
whose scan holds declarations only, no function body: `Validate` returns
'header-only file doesn't contain any definition' exactly when none of the
declarations is a function prototype. -/
theorem Validate_headerOnly_empty_iff (fname : String) (data : Bytes) (root : Node)
    (F : List Node) (hroot0 : hasErrorNode root = false)
    (hF : ∀ n ∈ F, n.NodeType = "declaration") :
    Validate fname data (Tree.mk root (scanOf F)) fname data (Tree.mk root (scanOf F)) =
        Outcome.error [Line.msg "header-only file doesn't contain any definition"] ↔
      ∀ n ∈ F, isPrototype n = false := by
  rw [headerOnly_without_definition fname data root F _ hroot0 hF, ← protoIdNodes_eq_nil_iff]
  cases hP : protoIdNodes F with
  | nil => simp
  | cons front rest =>
    simp only [reduceCtorEq, iff_false]
    unfold errorAt makeError renderErrorString
    cases renderNodeLocString front fname data <;> simp

theorem Validate_headerOnly_empty_iff_witness :
    Validate "fname.h" sampleHdrPlain (sampleTree 14 sampleHdrPlainItems)
        "fname.h" sampleHdrPlain (sampleTree 14 sampleHdrPlainItems) =
      Outcome.error [Line.msg "header-only file doesn't contain any definition"] :=
  (Validate_headerOnly_empty_iff "fname.h" sampleHdrPlain _ sampleHdrPlainItems
    (by decide) (by decide)).mpr (by decide)

/-- C11 fails as stated. Header-only mode, the file `int add(void);`: one
declaration, no function body, and `Validate` returns 'declaration without
matching definition' for `add`, not 'header-only file doesn't contain any
definition'. -/
theorem Validate_headerOnly_empty_counterexample :
    (∀ n ∈ [sampleProto 0 3 0], n.NodeType = "declaration") ∧
      Validate "fname.h" sampleHdrAdd (sampleTree 15 [sampleProto 0 3 0])
          "fname.h" sampleHdrAdd (sampleTree 15 [sampleProto 0 3 0]) =
        Outcome.error [Line.msg "declaration without matching definition",
          Line.loc ⟨"fname.h", 1, 5, 1, "int add(void);\n".toList⟩] := by
  decide

/-- C12 fails on a last line without newline. Split mode, header
`int add(void);`, source `int add(void){}` followed by the prototype
`int mul(void);` on a last line that no newline ends: `add` is matched, the
prototype is met with no violation before it, and `Validate` panics in
`stringAtRow` where 'found declaration but expected definition' is due. -/
theorem Validate_late_prototype_panic :
    sampleSrcLateProtoItems.map isPrototype = [false, true] ∧
      defIds sampleSrcLateProto sampleSrcLateProtoItems = ["add".toList] ∧
      Validate "header.h" sampleHdrAdd (sampleTree 15 [sampleProto 0 3 0])
        "source.c" sampleSrcLateProto (sampleTree 30 sampleSrcLateProtoItems) =
          Outcome.panic := by
  decide

/-- C13 fails on a last line without newline. The tree of
`int add(void);` followed by a stray `)` that no newline ends has an error
node, the first in pre-order being that of the `)`, and `assertNoParserErrors`
panics in `stringAtRow` where it should return 'syntax error'. -/
theorem assertNoParserErrors_panic :
    hasErrorNode sampleStrayTree.RootNode = true ∧
      (firstErrorNode sampleStrayTree.RootNode).map Node.StartPoint = some ⟨1, 0⟩ ∧
      assertNoParserErrors "header.h" sampleStray sampleStrayTree.RootNode = Outcome.panic := by
  decide

/-- C14 fails in split mode. Header `int x;` / `int y;`, source
`int mul(void){}`: the definition of `mul` meets an empty queue, and the
location block of 'definition without matching declaration' carries the
header's name and the header's first line, `int x;`, for a node of the source,
whose first line is `int mul(void){}`. -/
theorem Validate_undeclared_wrong_file :
    Validate "header.h" sampleHdrPlain (sampleTree 14 sampleHdrPlainItems)
        "source.c" sampleSrcLoneMul (sampleTree 16 [sampleDef 0 3 0]) =
      Outcome.error [Line.msg "definition without matching declaration",
        Line.loc ⟨"header.h", 1, 5, 1, "int x;\n".toList⟩] ∧
    stringAtRow sampleSrcLoneMul 0 = some "int mul(void){}\n".toList := by
  decide

/-- C15. For every argument list `args` that begins with the program name
`args[0]` and whose length is neither 2 nor 3, `Run` returns the usage error,
whose text is `Usage: ` followed by `args[0]` and ` file [file]`, and reads no
file. -/
theorem Run_usage (readFile : String → Except String Bytes) (parse : Bytes → Tree)
    (arg0 : String) (rest : List String)
    (h2 : (arg0 :: rest).length ≠ 2) (h3 : (arg0 :: rest).length ≠ 3) :
    Run readFile parse (arg0 :: rest) =
      (Outcome.error [Line.plain ("Usage: " ++ arg0 ++ " file [file]")], []) := by
  cases rest with
  | nil => rfl
  | cons a r =>
    cases r with
    | nil => exact absurd rfl h2
    | cons b r2 =>
      cases r2 with
      | nil => exact absurd rfl h3
      | cons c r3 => rfl

theorem Run_usage_witness :
    Run sampleReadFile sampleParse ["plint"] =
        (Outcome.error [Line.plain "Usage: plint file [file]"], []) ∧
      Run sampleReadFile sampleParse ["plint", "a.h", "a.c", "b.c"] =
        (Outcome.error [Line.plain "Usage: plint file [file]"], []) :=
  ⟨Run_usage sampleReadFile sampleParse "plint" [] (by decide) (by decide),
    Run_usage sampleReadFile sampleParse "plint" ["a.h", "a.c", "b.c"] (by decide) (by decide)⟩

/-- C16 fails on a last line without newline. The header `int add(void);`
followed by a stray `)` that no newline ends has an error node, and `Validate`
panics in `stringAtRow` where 'syntax error' is due; so it does in split mode
when that file is the source of the clean header `sampleHdr`. -/
theorem Validate_syntax_error_panic :
    hasErrorNode sampleStrayTree.RootNode = true ∧
      Validate "header.h" sampleStray sampleStrayTree
        "source.c" sampleSrc (sampleTree 32 sampleSrcItems) = Outcome.panic ∧
      hasErrorNode (sampleTree 30 sampleHdrItems).RootNode = false ∧
      Validate "header.h" sampleHdr (sampleTree 30 sampleHdrItems)
        "source.c" sampleStray sampleStrayTree = Outcome.panic := by
  decide

/-- C17, as the code has it. Split mode, a fixed header. When reconciling the
first items `A ++ [x]` of a source ends in a violation, `Validate` gives the
same outcome on that source and on every source without error nodes whose
scan begins with the same items (same kind, static flag, identifier and
location blocks): what follows these items has no influence. -/
theorem Validate_fail_fast (hf : String) (h : Bytes) (ht : Tree) (sf : String)
    (s : Bytes) (sroot : Node) (A : List Node) (x : Node) (B : List Node)
    (s2 : Bytes) (sroot2 : Node) (A2 : List Node) (x2 : Node) (B2 : List Node)
    (hne : hf ≠ sf)
    (hclean : hasErrorNode sroot = false) (hclean2 : hasErrorNode sroot2 = false)
    (hviol : violationWithin hf h ht sf s (A ++ [x]))
    (hsame : (A ++ [x]).map (itemInfo sf s) = (A2 ++ [x2]).map (itemInfo sf s2)) :
    Validate hf h ht sf s (Tree.mk sroot (scanOf (A ++ x :: B))) =
      Validate hf h ht sf s2 (Tree.mk sroot2 (scanOf (A2 ++ x2 :: B2))) := by
  obtain ⟨cur, q, hscan, hv⟩ := hviol
  have h1 : A ++ x :: B = (A ++ [x]) ++ B := by simp
  have h2 : A2 ++ x2 :: B2 = (A2 ++ [x2]) ++ B2 := by simp
  have hv2 : (validateMatches hf h sf s2 (scanOf (A2 ++ [x2])) q).1 ≠ Outcome.nil := by
    rw [← validateMatches_congr hf h sf s s2 _ _ q hsame]
    exact hv
  unfold Validate
  simp only [hscan, decide_eq_false hne,
    (assertNoParserErrors_eq_nil_iff sf s sroot).mpr hclean,
    (assertNoParserErrors_eq_nil_iff sf s2 sroot2).mpr hclean2]
  rw [h1, h2, validateMatches_fail_fast hf h sf s _ B q hv,
    validateMatches_fail_fast hf h sf s2 _ B2 q hv2,
    validateMatches_congr hf h sf s s2 _ _ q hsame]

theorem Validate_fail_fast_witness :
    Validate "header.h" sampleHdrAdd (sampleTree 15 [sampleProto 0 3 0])
        "source.c" sampleSrcLoneMul (sampleTree 16 ([] ++ sampleDef 0 3 0 :: [])) =
      Validate "header.h" sampleHdrAdd (sampleTree 15 [sampleProto 0 3 0])
        "source.c" sampleSrcMulAdd (sampleTree 32 ([] ++ sampleDef 0 3 0 :: [sampleDef 16 3 1])) :=
  Validate_fail_fast "header.h" sampleHdrAdd (sampleTree 15 [sampleProto 0 3 0])
    "source.c" sampleSrcLoneMul _ [] (sampleDef 0 3 0) []
    sampleSrcMulAdd _ [] (sampleDef 0 3 0) [sampleDef 16 3 1]
    (by decide) (by decide) (by decide)
    ⟨none, [sampleId 4 3 0 4], rfl, by decide⟩ (by decide)

/-- C17 fails as stated. Split mode, header `int add(void);`. On the source
`int mul(void){}` `Validate` returns 'declaration and definition not in
order', raised at the first item; on the source `int mul(void){}` followed by
a stray `)`, whose scan has the same first item, it returns 'syntax error'. -/
theorem Validate_fail_fast_counterexample :
    Validate "header.h" sampleHdrAdd (sampleTree 15 [sampleProto 0 3 0])
        "source.c" sampleSrcLoneMul (sampleTree 16 [sampleDef 0 3 0]) =
      Outcome.error [Line.msg "declaration and definition not in order",
        Line.loc ⟨"header.h", 1, 5, 1, "int add(void);\n".toList⟩, Line.empty,
        Line.loc ⟨"source.c", 1, 5, 1, "int mul(void){}\n".toList⟩] ∧
    [sampleDef 0 3 0].map (itemInfo "source.c" sampleSrcLoneMul) =
      [sampleDef 0 3 0].map (itemInfo "source.c" sampleSrcMulStray) ∧
    Validate "header.h" sampleHdrAdd (sampleTree 15 [sampleProto 0 3 0])
        "source.c" sampleSrcMulStray sampleSrcMulStrayTree =
      Outcome.error [Line.msg "syntax error",
        Line.loc ⟨"source.c", 2, 1, 1, ")\n".toList⟩] := by
  decide

/-- C18 fails on a last line without newline. In `ab` / `cd`, where no newline
ends `cd`, row 0 gives `ab` with its newline, and on row 1, which exists,
`stringAtRow` reads past the end of the data and panics; so it does on row 0
of `int add(void);`. -/
theorem stringAtRow_last_line_panic :
    stringAtRow "ab\ncd".toList 0 = some "ab\n".toList ∧
      stringAtRow "ab\ncd".toList 1 = none ∧
      stringAtRow sampleNoNewline 0 = none := by
  decide

/-- C19 fails on row 9. A node on the tenth line of a file has zero-based row
9, so the gutter width is 1, while the row number printed is 10, of two
digits: the `|` of the row line stands one column to the right of the `|` of
the two blank gutter lines.  `Validate` gives such a block for the prototype
on the tenth line of `sampleTenLines`. -/
theorem renderNodeLocString_width_row_nine :
    renderNodeLocString (sampleId 13 3 9 4) "fname.h" sampleTenLines =
        some ⟨"fname.h", 10, 5, 1, "int add(void);\n".toList⟩ ∧
      decimalLength 10 = 2 ∧ (toString (10 : Nat)).length = 2 ∧
      LocBlock.barColumnBlank ⟨"fname.h", 10, 5, 1, "int add(void);\n".toList⟩ = 2 ∧
      LocBlock.barColumnRow ⟨"fname.h", 10, 5, 1, "int add(void);\n".toList⟩ = 3 ∧
      Validate "fname.h" sampleTenLines (sampleTree 24 [sampleProto 9 3 9])
          "fname.h" sampleTenLines (sampleTree 24 [sampleProto 9 3 9]) =
        Outcome.error [Line.msg "declaration without matching definition",
          Line.loc ⟨"fname.h", 10, 5, 1, "int add(void);\n".toList⟩] := by
  refine ⟨by decide, decimalLength_ten, by decide, by decide, ?_, by decide⟩
  simp [LocBlock.barColumnRow, decimalLength_ten]

end Plint
